import Mathlib

set_option maxHeartbeats 1000000

/-!
Verification development for the obsidian-kg-plugin repository.

Shallow embedding of the note-processing / tag-index / graph-compilation
pipeline.  Machine numbers are modelled as Nat (timestamps, counters) and
Rat (similarity / strength scores).  JavaScript strings are modelled as
Lean String or List Char; JS regex scans are translated as explicit
left-to-right scanners with the same leftmost-match / single-char-advance
semantics as the source regexes.  External id generation (Graph.create*,
Id.generate) is modelled as a deterministic counter supply, which is
irrelevant to every counting claim.
-/

/-! ## Shared data model (src/types.ts) -/

structure PosPoint where
  line : Nat
  col : Nat
  offset : Nat
deriving DecidableEq

structure Pos where
  start : PosPoint
  stop : PosPoint
deriving DecidableEq

/-- LinkData from src/types.ts; the union type of the `type` field is
modelled as a plain string ("internal" / "embed"). -/
structure LinkData where
  target : String
  displayText : String
  type : String
  position : Pos
deriving DecidableEq

structure Heading where
  level : Nat
  heading : String
deriving DecidableEq

structure Block where
  type : String
  content : String
deriving DecidableEq

/-- Frontmatter `tags` field: a JS value that may be absent/falsy, a single
string, or an array whose entries may or may not be strings. -/
inductive FmTagsField where
  | missing
  | single (s : String)
  | arr (items : List (Option String))
deriving DecidableEq

/-- The frontmatter fields the extractor reads (title / tags); the rest of
the raw Record(string, any) frontmatter is irrelevant to every claim. -/
structure FmData where
  title : Option String
  tags : FmTagsField
deriving DecidableEq

structure MetaLink where
  link : String
  displayText : Option String
  position : Pos
deriving DecidableEq

/-- The structural metadata supplied by the host (obsidian CachedMetadata):
each field nullable, tag entries carry their raw text including the hash. -/
structure CachedMetadata where
  frontmatter : Option FmData
  tags : Option (List String)
  links : Option (List MetaLink)
  embeds : Option (List MetaLink)
  headings : Option (List Heading)
deriving DecidableEq

structure NoteData where
  title : String
  content : String
  path : String
  createdDate : Nat
  modifiedDate : Nat
  tags : List String
  links : List LinkData
  frontmatter : FmData
  headings : List Heading
  blocks : List Block
deriving DecidableEq

/-! ## Graph compiler (src/knowledge-graph-service.ts) -/

namespace KnowledgeGraphService

structure Settings where
  includeTags : Bool
  includeLinks : Bool
  spaceId : String
deriving DecidableEq

/-- One op of the external @graphprotocol/grc-20 operation log; each
Graph.create* call is modelled as producing one op carrying its payload. -/
inductive Op where
  | createProperty (id : Nat) (name dataType : String)
  | createType (id : Nat) (name : String) (properties : List Nat)
  | createEntity (id : Nat) (name description : String) (types : List Nat)
      (values : List (Nat × String))
  | createRelation (id fromEntity toEntity relType : Nat) (toSpace position : String)
deriving DecidableEq

structure ProcessedEntity where
  id : Nat
  type : String
  name : String
  ops : List Op
deriving DecidableEq

structure ProcessedRelation where
  id : Nat
  type : String
  fromEntity : Nat
  toEntity : Nat
  ops : List Op
deriving DecidableEq

/-- Graph.serializeDate(new Date(ts)), modelled as an opaque injective
rendering of the timestamp. -/
def serializeDate (ts : Nat) : String := toString ts

/-- createNoteEntity: five property ops, one type op, one entity op; `c` is
the fresh-id counter modelling the external id generator. -/
def createNoteEntity (noteData : NoteData) (c : Nat) : ProcessedEntity × Nat :=
  let titlePropOp := Op.createProperty c "Title" "TEXT"
  let contentPropOp := Op.createProperty (c + 1) "Content" "TEXT"
  let createdPropOp := Op.createProperty (c + 2) "Created Date" "TIME"
  let modifiedPropOp := Op.createProperty (c + 3) "Modified Date" "TIME"
  let pathPropOp := Op.createProperty (c + 4) "File Path" "TEXT"
  let noteTypeOp := Op.createType (c + 5) "Obsidian Note" [c, c + 1, c + 2, c + 3, c + 4]
  let noteOp := Op.createEntity (c + 6) noteData.title
    (noteData.content.take 200 ++ "...") [c + 5]
    [(c, noteData.title), (c + 1, noteData.content),
     (c + 2, serializeDate noteData.createdDate),
     (c + 3, serializeDate noteData.modifiedDate),
     (c + 4, noteData.path)]
  ({ id := c + 6, type := "note", name := noteData.title,
     ops := [titlePropOp, contentPropOp, createdPropOp, modifiedPropOp,
             pathPropOp, noteTypeOp, noteOp] }, c + 7)

/-- createTagEntity: one property op, one type op, one entity op. -/
def createTagEntity (tag : String) (c : Nat) : ProcessedEntity × Nat :=
  let namePropOp := Op.createProperty c "Tag Name" "TEXT"
  let tagTypeOp := Op.createType (c + 1) "Obsidian Tag" [c]
  let tagOp := Op.createEntity (c + 2) tag ("Tag: " ++ tag) [c + 1] [(c, tag)]
  ({ id := c + 2, type := "tag", name := tag,
     ops := [namePropOp, tagTypeOp, tagOp] }, c + 3)

/-- createLinkEntity: one property op, one type op, one entity op. -/
def createLinkEntity (link : String) (c : Nat) : ProcessedEntity × Nat :=
  let linkPropOp := Op.createProperty c "Link Target" "TEXT"
  let linkTypeOp := Op.createType (c + 1) "Obsidian Link" [c]
  let linkEntityOp := Op.createEntity (c + 2) link ("Link to: " ++ link) [c + 1] [(c, link)]
  ({ id := c + 2, type := "link", name := link,
     ops := [linkPropOp, linkTypeOp, linkEntityOp] }, c + 3)

/-- createTagRelation: one relation-type op plus one relation op. -/
def createTagRelation (noteId tagId : Nat) (spaceId : String) (c : Nat) :
    ProcessedRelation × Nat :=
  let hasTagTypeOp := Op.createType c "Has Tag Relation" []
  let relationOp := Op.createRelation (c + 1) noteId tagId c spaceId "tag-relation"
  ({ id := c + 1, type := "has-tag", fromEntity := noteId, toEntity := tagId,
     ops := [hasTagTypeOp, relationOp] }, c + 2)

/-- createLinkRelation: one relation-type op plus one relation op. -/
def createLinkRelation (noteId linkId : Nat) (spaceId : String) (c : Nat) :
    ProcessedRelation × Nat :=
  let linksToTypeOp := Op.createType c "Links To Relation" []
  let relationOp := Op.createRelation (c + 1) noteId linkId c spaceId "link-relation"
  ({ id := c + 1, type := "links-to", fromEntity := noteId, toEntity := linkId,
     ops := [linksToTypeOp, relationOp] }, c + 2)

/-- The per-tag loop body of createKnowledgeEntities: entity then relation,
each pushed to its own list. -/
def tagLoop (spaceId : String) (noteId : Nat) :
    List String → Nat → List ProcessedEntity × List ProcessedRelation × Nat
  | [], c => ([], [], c)
  | tag :: rest, c =>
    let (tagEntity, c1) := createTagEntity tag c
    let (tagRelation, c2) := createTagRelation noteId tagEntity.id spaceId c1
    let (es, rs, c3) := tagLoop spaceId noteId rest c2
    (tagEntity :: es, tagRelation :: rs, c3)

/-- The per-link loop body of createKnowledgeEntities. -/
def linkLoop (spaceId : String) (noteId : Nat) :
    List LinkData → Nat → List ProcessedEntity × List ProcessedRelation × Nat
  | [], c => ([], [], c)
  | link :: rest, c =>
    let (linkEntity, c1) := createLinkEntity link.target c
    let (linkRelation, c2) := createLinkRelation noteId linkEntity.id spaceId c1
    let (es, rs, c3) := linkLoop spaceId noteId rest c2
    (linkEntity :: es, linkRelation :: rs, c3)

/-- createKnowledgeEntities (src/knowledge-graph-service.ts lines 31-68):
main note entity, then tag entities/relations when includeTags and the note
has tags, then link entities/relations when includeLinks and the note has
links. -/
def createKnowledgeEntities (settings : Settings) (noteData : NoteData) :
    List ProcessedEntity × List ProcessedRelation :=
  let (noteEntity, c0) := createNoteEntity noteData 0
  let (tagEntities, tagRelations, c1) :=
    if settings.includeTags ∧ noteData.tags.length > 0 then
      tagLoop settings.spaceId noteEntity.id noteData.tags c0
    else ([], [], c0)
  let (linkEntities, linkRelations, _) :=
    if settings.includeLinks ∧ noteData.links.length > 0 then
      linkLoop settings.spaceId noteEntity.id noteData.links c1
    else ([], [], c1)
  (noteEntity :: (tagEntities ++ linkEntities), tagRelations ++ linkRelations)

theorem tagLoop_lengths (spaceId : String) (noteId : Nat) :
    ∀ (tags : List String) (c : Nat),
      (tagLoop spaceId noteId tags c).1.length = tags.length ∧
      (tagLoop spaceId noteId tags c).2.1.length = tags.length := by
  intro tags
  induction tags with
  | nil => intro c; simp [tagLoop]
  | cons t rest ih =>
    intro c
    simp only [tagLoop, List.length_cons]
    exact ⟨by simp [(ih _).1], by simp [(ih _).2]⟩

theorem linkLoop_lengths (spaceId : String) (noteId : Nat) :
    ∀ (links : List LinkData) (c : Nat),
      (linkLoop spaceId noteId links c).1.length = links.length ∧
      (linkLoop spaceId noteId links c).2.1.length = links.length := by
  intro links
  induction links with
  | nil => intro c; simp [linkLoop]
  | cons l rest ih =>
    intro c
    simp only [linkLoop, List.length_cons]
    exact ⟨by simp [(ih _).1], by simp [(ih _).2]⟩

/-- A concrete note with 2 tags and 3 links, used by the claimed instance. -/
def exPos : Pos := { start := ⟨0, 0, 0⟩, stop := ⟨0, 0, 0⟩ }

def exLink (t : String) : LinkData :=
  { target := t, displayText := t, type := "internal", position := exPos }

def exNote23 : NoteData :=
  { title := "N", content := "body", path := "n.md", createdDate := 0,
    modifiedDate := 0, tags := ["t1", "t2"],
    links := [exLink "a", exLink "b", exLink "c"],
    frontmatter := { title := none, tags := FmTagsField.missing },
    headings := [], blocks := [] }

/-- C1: For every note and every setting of the options, compilation returns
exactly 1 + (includeTags ? tagCount : 0) + (includeLinks ? linkCount : 0)
entities and (includeTags ? tagCount : 0) + (includeLinks ? linkCount : 0)
relations; in particular a note with 2 tags and 3 links with both options
enabled yields exactly 6 entities and 5 relations. -/
theorem claim_C1_compilation_counts :
    (∀ (settings : Settings) (noteData : NoteData),
      (createKnowledgeEntities settings noteData).1.length =
        1 + (if settings.includeTags then noteData.tags.length else 0)
          + (if settings.includeLinks then noteData.links.length else 0) ∧
      (createKnowledgeEntities settings noteData).2.length =
        (if settings.includeTags then noteData.tags.length else 0)
          + (if settings.includeLinks then noteData.links.length else 0)) ∧
    (createKnowledgeEntities ⟨true, true, "s"⟩ exNote23).1.length = 6 ∧
    (createKnowledgeEntities ⟨true, true, "s"⟩ exNote23).2.length = 5 := by
  refine ⟨fun settings noteData => ?_, by decide, by decide⟩
  unfold createKnowledgeEntities
  by_cases ht : settings.includeTags ∧ noteData.tags.length > 0 <;>
    by_cases hl : settings.includeLinks ∧ noteData.links.length > 0 <;>
      simp only [ht, hl, if_pos, if_neg, not_false_eq_true, if_true, if_false] <;>
        constructor <;>
          simp_all [tagLoop_lengths, linkLoop_lengths, Nat.pos_iff_ne_zero,
            not_and_or, Decidable.not_not] <;>
            omega

end KnowledgeGraphService

/-! ## Content extractor (NoteProcessor, src/unnamed/part_000) -/

namespace NoteProcessor

/-- JS truthiness of an optional string: absent and the empty string are
falsy, every other string is truthy. -/
def jsTruthyStr : Option String → Bool
  | none => false
  | some s => s ≠ ""

/-- The character class of the dot in the heading regex: any character but
a newline. -/
def notNL (c : Char) : Bool := c ≠ '\n'

theorem notNL_nl : notNL '\n' = false := rfl

theorem notNL_of_ne {c : Char} (h : c ≠ '\n') : notNL c = true := by
  simp [notNL, h]

/-- Scanner for the m-flagged regex matching a level-1 heading line: the
engine attempts a match at every position, the start anchor succeeding only
at line starts; on failure it advances one character.  Returns the capture
group (the rest of the heading line) of the first match. -/
def firstH1Aux : Bool → List Char → Option (List Char)
  | _, [] => none
  | atStart, ch :: rest =>
    if atStart ∧ ch = '#' ∧ rest.take 1 = [' '] ∧
        (rest.drop 1).takeWhile notNL ≠ [] then
      some ((rest.drop 1).takeWhile notNL)
    else firstH1Aux (decide (ch = '\n')) rest

def firstH1 (content : List Char) : Option (List Char) :=
  firstH1Aux true content

/-- Decomposition of a text into its lines, the line structure the multiline
anchors of the heading regex refer to. -/
def linesOf (l : List Char) : List (List Char) :=
  match h : l.dropWhile notNL with
  | [] => [l.takeWhile notNL]
  | _ :: rest => l.takeWhile notNL :: linesOf rest
termination_by l.length
decreasing_by
  have h1 : (l.dropWhile notNL).length ≤ l.length :=
    (List.dropWhile_sublist _).length_le
  simp only [h] at h1
  simp at h1 ⊢
  omega

/-- A line is a level-1 heading line when it starts with hash-space and has
at least one further character. -/
def isH1Line (ln : List Char) : Bool :=
  ln.take 2 = ['#', ' '] ∧ ln.drop 2 ≠ []

/-- The specification-side reading of title step 2: the text of the first
line anywhere in the raw text that matches a level-1 heading. -/
def firstH1Spec (content : List Char) : Option (List Char) :=
  ((linesOf content).find? isH1Line).map (·.drop 2)

theorem takeWhile_notNL_cons_of_ne {c : Char} (h : c ≠ '\n') (l : List Char) :
    (c :: l).takeWhile notNL = c :: l.takeWhile notNL := by
  rw [List.takeWhile_cons_of_pos (notNL_of_ne h)]

theorem dropWhile_notNL_cons_of_ne {c : Char} (h : c ≠ '\n') (l : List Char) :
    (c :: l).dropWhile notNL = l.dropWhile notNL := by
  rw [List.dropWhile_cons_of_pos (notNL_of_ne h)]

/-- extractTitle (part_000 lines 29-44): frontmatter title if truthy, else
first level-1 heading (trimmed), else the file basename. -/
def extractTitle (metadata : Option CachedMetadata) (content : List Char)
    (basename : String) : String :=
  let fmTitle := (metadata.bind (·.frontmatter)).bind (·.title)
  if jsTruthyStr fmTitle then fmTitle.getD ""
  else
    match firstH1 content with
    | some h => (String.mk h).trim
    | none => basename

theorem firstH1Aux_false (l : List Char) :
    firstH1Aux false l =
      match l.dropWhile notNL with
      | [] => none
      | _ :: rest => firstH1Aux true rest := by
  induction l with
  | nil => simp [firstH1Aux]
  | cons c rest ih =>
    by_cases hc : c = '\n'
    · subst hc
      simp [firstH1Aux, List.dropWhile, notNL]
    · rw [firstH1Aux, if_neg (by simp)]
      have hd : decide (c = '\n') = false := by simp [hc]
      rw [hd, ih, dropWhile_notNL_cons_of_ne hc]

theorem firstH1Spec_head (l : List Char)
    (h : isH1Line (l.takeWhile notNL) = true) :
    firstH1Spec l = some ((l.takeWhile notNL).drop 2) := by
  unfold firstH1Spec
  unfold linesOf
  split <;> rw [List.find?_cons_of_pos _ h] <;> rfl

theorem firstH1Spec_step (l : List Char)
    (h : isH1Line (l.takeWhile notNL) = false) :
    firstH1Spec l =
      match l.dropWhile notNL with
      | [] => none
      | _ :: rest => firstH1Spec rest := by
  unfold firstH1Spec
  conv_lhs => rw [linesOf]
  split <;> rename_i heq <;> rw [heq] <;>
    rw [List.find?_cons_of_neg _ (by simp [h])]
  all_goals rfl

theorem firstH1_eq_spec (l : List Char) : firstH1 l = firstH1Spec l := by
  unfold firstH1
  suffices H : ∀ (n : Nat) (l : List Char), l.length ≤ n →
      firstH1Aux true l = firstH1Spec l from H l.length l le_rfl
  intro n
  induction n with
  | zero =>
    intro l hl
    match l, hl with
    | [], _ => simp [firstH1Aux, firstH1Spec, linesOf, isH1Line, List.find?]
  | succ n ih =>
    intro l hl
    match l with
    | [] => simp [firstH1Aux, firstH1Spec, linesOf, isH1Line, List.find?]
    | c :: rest =>
      by_cases hmatch : c = '#' ∧ rest.take 1 = [' '] ∧
          (rest.drop 1).takeWhile notNL ≠ []
      · obtain ⟨hc, ht, hb⟩ := hmatch
        subst hc
        cases rest with
        | nil => simp at ht
        | cons r0 r2 =>
          have hr0 : r0 = ' ' := by simpa using ht
          subst hr0
          simp only [List.drop_succ_cons, List.drop_zero] at hb
          rw [firstH1Aux, if_pos ⟨rfl, rfl, by simpa using ht, by simpa using hb⟩]
          have hline : ('#' :: ' ' :: r2).takeWhile notNL =
              '#' :: ' ' :: r2.takeWhile notNL := by
            rw [takeWhile_notNL_cons_of_ne (by decide),
              takeWhile_notNL_cons_of_ne (by decide)]
          rw [firstH1Spec_head _ (by simp [hline, isH1Line, hb]), hline]
          simp
      · rw [firstH1Aux, if_neg (by simpa using hmatch)]
        have hnotline : isH1Line ((c :: rest).takeWhile notNL) = false := by
          simp only [isH1Line]
          rw [decide_eq_false_iff_not]
          rintro ⟨hA, hB⟩
          by_cases h1 : c = '\n'
          · rw [h1, List.takeWhile_cons_of_neg (by simp [notNL])] at hA
            simp at hA
          · rw [takeWhile_notNL_cons_of_ne h1] at hA hB
            rw [List.take_succ_cons] at hA
            obtain ⟨hc1, hA1⟩ := List.cons_eq_cons.mp hA
            cases hw : rest.takeWhile notNL with
            | nil => rw [hw] at hA1; simp at hA1
            | cons x xs =>
              rw [hw] at hA1 hB
              have hx : x = ' ' := by simpa using hA1
              subst hx
              have hxs : xs ≠ [] := by simpa using hB
              cases rest with
              | nil => simp [List.takeWhile] at hw
              | cons r0 rr =>
                rw [List.takeWhile_cons] at hw
                split at hw
                · obtain ⟨hr0, hrr⟩ := List.cons_eq_cons.mp hw
                  exact hmatch ⟨hc1, by simp [hr0], by simpa [hrr] using hxs⟩
                · cases hw
        rw [firstH1Spec_step _ hnotline]
        by_cases hc : c = '\n'
        · subst hc
          have hd : decide (('\n' : Char) = '\n') = true := by simp
          rw [hd]
          have hdw : ('\n' :: rest).dropWhile notNL = '\n' :: rest := by
            rw [List.dropWhile_cons_of_neg (by simp [notNL])]
          rw [hdw]
          exact ih rest (by simpa using Nat.le_of_succ_le_succ hl)
        · have hd : decide (c = '\n') = false := by simp [hc]
          rw [hd, firstH1Aux_false, dropWhile_notNL_cons_of_ne hc]
          match heq : rest.dropWhile notNL with
          | [] => rfl
          | x :: xs =>
            have hlen : xs.length ≤ n := by
              have h1 : (rest.dropWhile notNL).length ≤ rest.length :=
                (List.dropWhile_sublist _).length_le
              rw [heq] at h1
              simp only [List.length_cons] at h1 hl
              omega
            exact ih xs hlen


/-- The specification-side precedence function for title resolution. -/
def titleSpec (metadata : Option CachedMetadata) (content : List Char)
    (basename : String) : String :=
  match (metadata.bind (·.frontmatter)).bind (·.title) with
  | some t => if t ≠ "" then t else titleFallback content basename
  | none => titleFallback content basename
where
  titleFallback (content : List Char) (basename : String) : String :=
    match firstH1Spec content with
    | some h => (String.mk h).trim
    | none => basename

/-- JS String.prototype.replace with a plain-string pattern removes only the
first occurrence of the pattern. -/
def removeFirstChar (c : Char) : List Char → List Char
  | [] => []
  | x :: xs => if x = c then xs else x :: removeFirstChar c xs

def removeFirstHash (s : String) : String := String.mk (removeFirstChar '#' s.data)

/-- JS Set insertion-order semantics: keep the first occurrence of each
element, drop later duplicates. -/
def jsSetDedupAux (seen : List String) : List String → List String
  | [] => []
  | x :: xs =>
    if x ∈ seen then jsSetDedupAux seen xs
    else x :: jsSetDedupAux (x :: seen) xs

def jsSetDedup (l : List String) : List String := jsSetDedupAux [] l

/-- Tags supplied by the structural metadata entries (hash stripped via
first-occurrence replace). -/
def structuralTags (metadata : Option CachedMetadata) : List String :=
  match metadata.bind (·.tags) with
  | some ts => ts.map removeFirstHash
  | none => []

/-- Tags from the frontmatter tags field: guarded by JS truthiness (missing
or empty-string field contributes nothing), accepting a string array whose
non-string entries are skipped, or one single string. -/
def frontmatterTags (metadata : Option CachedMetadata) : List String :=
  match metadata.bind (·.frontmatter) with
  | some fm =>
    match fm.tags with
    | FmTagsField.arr items => items.filterMap (fun it => it.map removeFirstHash)
    | FmTagsField.single s => if s = "" then [] else [removeFirstHash s]
    | FmTagsField.missing => []
  | none => []

/-- extractTags (part_000 lines 64-88): structural tags then frontmatter
tags, deduplicated through a JS Set. -/
def extractTags (metadata : Option CachedMetadata) : List String :=
  jsSetDedup (structuralTags metadata ++ frontmatterTags metadata)

/-- JS short-circuit or on strings: the empty string is falsy. -/
def jsOrElse (o : Option String) (dft : String) : String :=
  match o with
  | some s => if s = "" then dft else s
  | none => dft

/-- extractLinks (part_000 lines 90-116): link entries then embed entries. -/
def extractLinks (metadata : Option CachedMetadata) : List LinkData :=
  let links :=
    match metadata.bind (·.links) with
    | some ls => ls.map (fun lk =>
        { target := lk.link, displayText := jsOrElse lk.displayText lk.link,
          type := "internal", position := lk.position })
    | none => []
  let embeds :=
    match metadata.bind (·.embeds) with
    | some es => es.map (fun em =>
        { target := em.link, displayText := jsOrElse em.displayText em.link,
          type := "embed", position := em.position })
    | none => []
  links ++ embeds

def extractFrontmatter (metadata : Option CachedMetadata) : FmData :=
  (metadata.bind (·.frontmatter)).getD { title := none, tags := FmTagsField.missing }

def extractHeadings (metadata : Option CachedMetadata) : List Heading :=
  match metadata.bind (·.headings) with
  | some hs => hs.map (fun h => { level := h.level, heading := h.heading })
  | none => []

/-- processMultipleNotes (part_000 lines 171-184): per-note try/catch; a
failing note is skipped (and logged) and the loop continues; the note
processor itself is a parameter of the loop. -/
def processMultipleNotes {α : Type} (processNote : α → Except String NoteData) :
    List α → List NoteData
  | [] => []
  | f :: fs =>
    match processNote f with
    | Except.ok noteData => noteData :: processMultipleNotes processNote fs
    | Except.error _ => processMultipleNotes processNote fs

theorem jsSetDedupAux_mem (x : String) :
    ∀ (l : List String) (seen : List String),
      x ∈ jsSetDedupAux seen l ↔ x ∈ l ∧ x ∉ seen := by
  intro l
  induction l with
  | nil => intro seen; simp [jsSetDedupAux]
  | cons y ys ih =>
    intro seen
    by_cases hy : y ∈ seen
    · rw [jsSetDedupAux, if_pos hy, ih]
      constructor
      · rintro ⟨h1, h2⟩
        exact ⟨List.mem_cons_of_mem _ h1, h2⟩
      · rintro ⟨h1, h2⟩
        rcases List.mem_cons.mp h1 with h | h
        · subst h; exact absurd hy h2
        · exact ⟨h, h2⟩
    · rw [jsSetDedupAux, if_neg hy]
      constructor
      · intro h
        rcases List.mem_cons.mp h with h | h
        · subst h; exact ⟨List.mem_cons_self _ _, hy⟩
        · have := (ih _).mp h
          exact ⟨List.mem_cons_of_mem _ this.1,
            fun hc => this.2 (List.mem_cons_of_mem _ hc)⟩
      · rintro ⟨h1, h2⟩
        rcases List.mem_cons.mp h1 with h | h
        · subst h; exact List.mem_cons_self _ _
        · by_cases hxy : x = y
          · subst hxy; exact List.mem_cons_self _ _
          · exact List.mem_cons_of_mem _
              ((ih _).mpr ⟨h, by simp [hxy, h2]⟩)

theorem jsSetDedupAux_nodup :
    ∀ (l : List String) (seen : List String), (jsSetDedupAux seen l).Nodup := by
  intro l
  induction l with
  | nil => intro seen; simp [jsSetDedupAux]
  | cons y ys ih =>
    intro seen
    by_cases hy : y ∈ seen
    · rw [jsSetDedupAux, if_pos hy]; exact ih seen
    · rw [jsSetDedupAux, if_neg hy]
      refine List.nodup_cons.mpr ⟨?_, ih _⟩
      intro hmem
      have := (jsSetDedupAux_mem y ys (y :: seen)).mp hmem
      exact this.2 (List.mem_cons_self _ _)

theorem jsSetDedup_mem (x : String) (l : List String) :
    x ∈ jsSetDedup l ↔ x ∈ l := by
  rw [jsSetDedup, jsSetDedupAux_mem]
  simp

theorem jsSetDedup_nodup (l : List String) : (jsSetDedup l).Nodup :=
  jsSetDedupAux_nodup l []

/-- The concrete metadata of the claimed instance: inline hashtag a supplied
by structural metadata plus frontmatter tags a, a, b. -/
def exMetaC8 : CachedMetadata :=
  { frontmatter := some ⟨none, FmTagsField.arr [some "a", some "a", some "b"]⟩,
    tags := some ["#a"], links := none, embeds := none, headings := none }

/-- C8: Tag extraction is idempotent and order-independent: the union of
structural-metadata tags and frontmatter tags is a duplicate-free set, so a
note with frontmatter tags a, a, b plus inline hashtag a yields exactly the
set of a and b (size 2), regardless of input order. -/
theorem claim_C8_tag_extraction_dedup :
    (∀ metadata : Option CachedMetadata,
      (extractTags metadata).Nodup ∧
      (extractTags metadata).toFinset =
        (structuralTags metadata).toFinset ∪ (frontmatterTags metadata).toFinset) ∧
    extractTags (some exMetaC8) = ["a", "b"] := by
  constructor
  · intro metadata
    refine ⟨jsSetDedup_nodup _, ?_⟩
    ext x
    simp [extractTags, jsSetDedup_mem]
  · decide

/-- A metadata record all of whose nullable fields are null. -/
def emptyMeta : CachedMetadata :=
  { frontmatter := none, tags := none, links := none, embeds := none,
    headings := none }

/-- C9: Single-note extraction never raises for malformed input (missing or
null structural-metadata fields degrade to empty or default values), and
batch extraction isolates per-note failures: a note whose processing throws
is skipped, the remaining notes are still processed, and the error is not
rethrown to the caller. -/
theorem claim_C9_failure_isolation :
    (extractTags none = [] ∧ extractLinks none = [] ∧
     extractFrontmatter none = { title := none, tags := FmTagsField.missing } ∧
     extractHeadings none = [] ∧
     extractTags (some emptyMeta) = [] ∧ extractLinks (some emptyMeta) = [] ∧
     extractFrontmatter (some emptyMeta) =
       { title := none, tags := FmTagsField.missing } ∧
     extractHeadings (some emptyMeta) = []) ∧
    (∀ (α : Type) (processNote : α → Except String NoteData) (files : List α),
      processMultipleNotes processNote files =
        files.filterMap (fun f => (processNote f).toOption)) := by
  refine ⟨⟨by decide, by decide, by decide, by decide, by decide, by decide,
    by decide, by decide⟩, ?_⟩
  intro α processNote files
  induction files with
  | nil => rfl
  | cons f fs ih =>
    rw [processMultipleNotes, List.filterMap_cons]
    cases h : processNote f with
    | ok nd => simp [h, Except.toOption, ih]
    | error e => simp [h, Except.toOption, ih]

/-- Relationship edge of findNoteRelationships (analytic concept, distinct
from the published GraphRelation). -/
structure RelEdge where
  source : String
  target : String
  type : String
  strength : Rat
deriving DecidableEq

def isWsChar (c : Char) : Bool := c.isWhitespace

def notWs (c : Char) : Bool := ! isWsChar c

/-- Whitespace-splitting of JS String.prototype.split on one-or-more
whitespace; empty pieces are dropped (they are filtered out by the length
bound downstream in any case).  A word is a maximal run of non-whitespace
characters; after emitting it the scan resumes past the run. -/
def wordsOfGo : Nat → List Char → List (List Char)
  | 0, _ => []
  | _ + 1, [] => []
  | fuel + 1, c :: rest =>
    if isWsChar c then wordsOfGo fuel rest
    else (c :: rest).takeWhile notWs :: wordsOfGo fuel (rest.dropWhile notWs)

def wordsOf (l : List Char) : List (List Char) := wordsOfGo l.length l

/-- The lower-cased long-word token set of a content string (words of
length above 3, term frequency ignored: a JS Set). -/
def wordSet (content : String) : Finset (List Char) :=
  ((wordsOf content.toLower.data).filter (fun w => w.length > 3)).toFinset

theorem wordSet_inter_card_le (c1 c2 : String) :
    ((wordSet c1) ∩ (wordSet c2)).card ≤ ((wordSet c1) ∪ (wordSet c2)).card := by
  apply Finset.card_le_card
  intro x hx
  exact Finset.mem_union_left _ (Finset.mem_of_mem_inter_left hx)

/-- calculateContentSimilarity (part_000 lines 247-256): Jaccard ratio of
the two token sets.  When both sets are empty the JS ratio is NaN, which
fails the downstream 0.3 comparison exactly as the Rat value 0 does. -/
def calculateContentSimilarity (content1 content2 : String) : Rat :=
  let words1 := wordSet content1
  let words2 := wordSet content2
  let intersection := words1 ∩ words2
  let union := words1 ∪ words2
  (intersection.card : Rat) / (union.card : Rat)

/-- The body of the double loop of findNoteRelationships for one ordered
pair: up to one edge per kind, in source order. -/
def relsForPair (note1 note2 : NoteData) : List RelEdge :=
  let hasDirectLink :=
    note1.links.any (fun link => link.target = note2.title) ||
      note2.links.any (fun link => link.target = note1.title)
  let directEdges : List RelEdge :=
    if hasDirectLink then
      [{ source := note1.path, target := note2.path, type := "direct-link",
         strength := 1 }]
    else []
  let sharedTags := note1.tags.filter (fun tag => tag ∈ note2.tags)
  let sharedEdges : List RelEdge :=
    if sharedTags.length > 0 then
      [{ source := note1.path, target := note2.path, type := "shared-tags",
         strength := (sharedTags.length : Rat) /
           (max note1.tags.length note2.tags.length : Rat) }]
    else []
  let similarity := calculateContentSimilarity note1.content note2.content
  let simEdges : List RelEdge :=
    if similarity > 3 / 10 then
      [{ source := note1.path, target := note2.path,
         type := "content-similarity", strength := similarity }]
    else []
  directEdges ++ sharedEdges ++ simEdges

/-- The index pairs i lower than j of the double loop, in iteration order. -/
def allPairs {α : Type} : List α → List (α × α)
  | [] => []
  | x :: xs => xs.map (fun y => (x, y)) ++ allPairs xs

/-- findNoteRelationships (part_000 lines 189-245). -/
def findNoteRelationships (notes : List NoteData) : List RelEdge :=
  ((allPairs notes).map (fun p => relsForPair p.1 p.2)).join

theorem calcSim_bounds (c1 c2 : String)
    (h : 3 / 10 < calculateContentSimilarity c1 c2) :
    0 ≤ calculateContentSimilarity c1 c2 ∧
      calculateContentSimilarity c1 c2 ≤ 1 := by
  have hiu := wordSet_inter_card_le c1 c2
  unfold calculateContentSimilarity at h ⊢
  simp only at h ⊢
  rcases Nat.eq_zero_or_pos ((wordSet c1) ∪ (wordSet c2)).card with h0 | hupos
  · rw [h0] at h
    norm_num at h
  · refine ⟨by positivity, ?_⟩
    rw [div_le_one (by exact_mod_cast hupos)]
    exact_mod_cast hiu

/-- C5: For every pair of notes A and B where the links of A contain a
target string-equal to the title of B, relationship inference over the two
notes emits exactly one direct-link edge with strength 1 for that unordered
pair, never one per direction and never a self-pair. -/
theorem claim_C5_direct_link_edge (A B : NoteData)
    (h : ∃ link ∈ A.links, link.target = B.title) :
    (findNoteRelationships [A, B]).filter (fun e => e.type = "direct-link") =
      [{ source := A.path, target := B.path, type := "direct-link",
         strength := 1 }] := by
  have hdl : (A.links.any (fun link => link.target = B.title) ||
      B.links.any (fun link => link.target = A.title)) = true := by
    obtain ⟨lk, hmem, htgt⟩ := h
    have : A.links.any (fun link => link.target = B.title) = true :=
      List.any_eq_true.mpr ⟨lk, hmem, by simp [htgt]⟩
    simp [this]
  have hfr : findNoteRelationships [A, B] = relsForPair A B := by
    simp [findNoteRelationships, allPairs]
  rw [hfr, relsForPair]
  simp only [hdl, if_true]
  rw [List.filter_append, List.filter_append]
  have h1 : List.filter (fun e => decide (e.type = "direct-link"))
      [({ source := A.path, target := B.path, type := "direct-link",
          strength := 1 } : RelEdge)] =
      [{ source := A.path, target := B.path, type := "direct-link",
         strength := 1 }] := by
    simp [List.filter]
  rw [h1]
  by_cases hs : (A.tags.filter (fun tag => tag ∈ B.tags)).length > 0 <;>
    by_cases hc : calculateContentSimilarity A.content B.content > 3 / 10 <;>
      simp [hs, hc, List.filter]

/-- C6: Every edge returned by relationship inference has a strength in the
real interval from 0 to 1; in particular the content-similarity Jaccard
division never causes an emitted edge with an undefined or out-of-range
strength, even when both token sets are empty, because content-similarity
edges are emitted only when the similarity exceeds 0.3. -/
theorem claim_C6_strength_in_unit_interval (notes : List NoteData)
    (e : RelEdge) (he : e ∈ findNoteRelationships notes) :
    0 ≤ e.strength ∧ e.strength ≤ 1 := by
  unfold findNoteRelationships at he
  rw [List.mem_join] at he
  obtain ⟨l, hl, hel⟩ := he
  rw [List.mem_map] at hl
  obtain ⟨p, _, rfl⟩ := hl
  rw [relsForPair] at hel
  simp only [List.mem_append] at hel
  rcases hel with (hel | hel) | hel
  · -- direct-link when present
    split at hel
    · rcases List.mem_singleton.mp hel with rfl
      norm_num
    · cases hel
  · -- shared-tags when present
    split at hel
    · rcases List.mem_singleton.mp hel with rfl
      rename_i hpos
      simp only
      have hle : (p.1.tags.filter (fun tag => tag ∈ p.2.tags)).length ≤
          max p.1.tags.length p.2.tags.length :=
        le_trans (List.length_filter_le _ _) (le_max_left _ _)
      have hmaxpos : 0 < max p.1.tags.length p.2.tags.length :=
        lt_of_lt_of_le hpos hle
      constructor
      · positivity
      · rw [div_le_one (by exact_mod_cast hmaxpos)]
        exact_mod_cast hle
    · cases hel
  · -- content-similarity when above the threshold
    split at hel
    · rcases List.mem_singleton.mp hel with rfl
      rename_i hgt
      exact calcSim_bounds p.1.content p.2.content hgt
    · cases hel

/-- Concrete pair for the C5 and C6 witnesses: A links to the title of B. -/
def exNoteA : NoteData :=
  { title := "A", content := "", path := "a.md", createdDate := 0,
    modifiedDate := 0, tags := [],
    links := [{ target := "B", displayText := "B", type := "internal",
                position := KnowledgeGraphService.exPos }],
    frontmatter := { title := none, tags := FmTagsField.missing },
    headings := [], blocks := [] }

def exNoteB : NoteData :=
  { title := "B", content := "", path := "b.md", createdDate := 0,
    modifiedDate := 0, tags := [], links := [],
    frontmatter := { title := none, tags := FmTagsField.missing },
    headings := [], blocks := [] }

theorem claim_C5_witness :
    (∃ link ∈ exNoteA.links, link.target = exNoteB.title) ∧
    (findNoteRelationships [exNoteA, exNoteB]).filter
        (fun e => e.type = "direct-link") =
      [{ source := exNoteA.path, target := exNoteB.path,
         type := "direct-link", strength := 1 }] :=
  ⟨by decide, claim_C5_direct_link_edge exNoteA exNoteB (by decide)⟩

def exEdgeAB : RelEdge :=
  { source := "a.md", target := "b.md", type := "direct-link", strength := 1 }

theorem claim_C6_witness :
    exEdgeAB ∈ findNoteRelationships [exNoteA, exNoteB] ∧
    0 ≤ exEdgeAB.strength ∧ exEdgeAB.strength ≤ 1 :=
  ⟨by decide, claim_C6_strength_in_unit_interval [exNoteA, exNoteB] exEdgeAB
    (by decide)⟩

end NoteProcessor

/-! ## Tag index (TagManager, src/tag-manager.ts) -/

namespace TagManager

open NoteProcessor

structure TagMetadata where
  name : String
  count : Nat
  notes : List String
  color : String
  description : String
deriving DecidableEq

/-- Wrap of a JS number to a signed 32-bit integer, as performed by the JS
bitwise operators. -/
def toInt32 (n : Int) : Int := (n + 2 ^ 31) % 2 ^ 32 - 2 ^ 31

/-- One step of the rolling hash of generateTagColor: shift-left-5 wraps to
32 bits, the subtraction and the char-code addition are exact, and the
final bitwise and coerces back to 32 bits. -/
def hashStep (h : Int) (code : Nat) : Int :=
  toInt32 (toInt32 (h * 32) - h + code)

def jsHash (s : String) : Int := s.data.foldl (fun h c => hashStep h c.toNat) 0

def palette : List String :=
  ["#FF6B6B", "#4ECDC4", "#45B7D1", "#96CEB4", "#FFEAA7",
   "#DDA0DD", "#98D8C8", "#FFB6C1", "#F0E68C", "#FFA07A",
   "#20B2AA", "#87CEEB", "#DDA0DD", "#F0E68C", "#FFB6C1"]

def generateTagColor (tag : String) : String :=
  palette.getD ((jsHash tag).natAbs % palette.length) ""

/-- A character allowed inside an inline hashtag by the scan regex: neither
whitespace nor a hash. -/
def tagChar (c : Char) : Bool := ! isWsChar c && ! (c = '#')

/-- The global inline-hashtag scan: at each hash the maximal nonempty run
of tag characters is captured; otherwise the engine advances one
character. -/
def hashtagScanGo : Nat → List Char → List String
  | 0, _ => []
  | _ + 1, [] => []
  | fuel + 1, c :: rest =>
    if c = '#' then
      if (rest.takeWhile tagChar).length > 0 then
        String.mk (rest.takeWhile tagChar) ::
          hashtagScanGo fuel (rest.drop (rest.takeWhile tagChar).length)
      else hashtagScanGo fuel rest
    else hashtagScanGo fuel rest

def hashtagScan (l : List Char) : List String := hashtagScanGo l.length l

/-- Prefix of a list before the first occurrence of the (lazy) pattern, or
none when the pattern never occurs. -/
def splitBeforeInfix (pat : List Char) : List Char → Option (List Char)
  | [] => if pat.isPrefixOf ([] : List Char) then some [] else none
  | c :: rest =>
    if pat.isPrefixOf (c :: rest) then some []
    else (splitBeforeInfix pat rest).map (fun t => c :: t)

/-- The frontmatter block match anchored at the start of the content: three
dashes, newline, lazy body, newline, three dashes. -/
def fmBlock (content : List Char) : Option (List Char) :=
  if content.take 4 = ("---\n".data) then
    splitBeforeInfix ("\n---".data) (content.drop 4)
  else none

/-- Scanner for the tags-array regex inside the frontmatter: literal tag
key, greedy whitespace, opening bracket, lazy body up to the first closing
bracket (the attempt fails and the engine advances when no closing bracket
follows). -/
def findTagsArray : List Char → Option (List Char)
  | [] => none
  | c :: rest =>
    if ("tags:".data).isPrefixOf (c :: rest) then
      match ((c :: rest).drop 5).dropWhile isWsChar with
      | '[' :: r =>
        if ']' ∈ r then some (r.takeWhile (fun x => ! (x = ']')))
        else findTagsArray rest
      | _ => findTagsArray rest
    else findTagsArray rest

def trimChars (l : List Char) : List Char :=
  ((l.dropWhile isWsChar).reverse.dropWhile isWsChar).reverse

/-- Global removal of single and double quotes. -/
def stripQuotes (l : List Char) : List Char :=
  l.filter (fun c => ! (c = Char.ofNat 39) && ! (c = Char.ofNat 34))

/-- The frontmatter tag list: split the array body on commas, trim and
unquote each piece, keep the nonempty ones. -/
def frontmatterTagList (content : List Char) : List String :=
  match fmBlock content with
  | some fm =>
    match findTagsArray fm with
    | some inner =>
      ((inner.splitOn ',').map (fun t => stripQuotes (trimChars t))).filterMap
        (fun t => if t.length > 0 then some (String.mk t) else none)
    | none => []
  | none => []

/-- extractTagsFromContent (src/tag-manager.ts lines 222-248): inline
hashtags plus frontmatter tags, deduplicated through a JS Set. -/
def extractTagsFromContent (content : List Char) : List String :=
  jsSetDedup (hashtagScan content ++ frontmatterTagList content)

/-- The per-tag cache update of refreshTagCache: create a fresh entry when
absent (appended, preserving JS Map insertion order), then increment the
count and push the path. -/
def bump (path : String) (cache : List (String × TagMetadata)) (tag : String) :
    List (String × TagMetadata) :=
  if cache.any (fun e => e.1 = tag) then
    cache.map (fun e =>
      if e.1 = tag then
        (e.1, { e.2 with count := e.2.count + 1, notes := e.2.notes ++ [path] })
      else e)
  else
    cache ++ [(tag,
      { name := tag, count := 1, notes := [path],
        color := generateTagColor tag, description := "" })]

/-- The per-file step of refreshTagCache: an unreadable file is caught,
logged and skipped; otherwise every extracted tag of the file bumps the
cache. -/
def addFile (cache : List (String × TagMetadata))
    (file : String × Except Unit String) : List (String × TagMetadata) :=
  match file.2 with
  | Except.error _ => cache
  | Except.ok content =>
    (extractTagsFromContent content.data).foldl (bump file.1) cache

/-- The full cache rebuild loop of refreshTagCache, from an empty map. -/
def buildTagCache (files : List (String × Except Unit String)) :
    List (String × TagMetadata) :=
  files.foldl addFile []

structure TMState where
  tagCache : List (String × TagMetadata)
  lastCacheUpdate : Nat
deriving DecidableEq

def CACHE_DURATION : Nat := 5 * 60 * 1000

/-- refreshTagCache (src/tag-manager.ts lines 185-220): skip the scan only
when the last refresh is within the duration window and the cache is
non-empty; otherwise clear and rebuild.  The boolean reports whether the
underlying vault scan ran. -/
def refreshTagCache (st : TMState) (now : Nat)
    (files : List (String × Except Unit String)) : TMState × Bool :=
  if now - st.lastCacheUpdate < CACHE_DURATION ∧ st.tagCache.length > 0 then
    (st, false)
  else
    ({ tagCache := buildTagCache files, lastCacheUpdate := now }, true)

/-- getAllTags: refresh, then the cache values sorted by count
descending. -/
def getAllTags (st : TMState) (now : Nat)
    (files : List (String × Except Unit String)) :
    List TagMetadata × TMState × Bool :=
  let (st1, scanned) := refreshTagCache st now files
  ((st1.tagCache.map Prod.snd).insertionSort (fun a b => b.count ≤ a.count),
    st1, scanned)

/-- Word character of the word-boundary assertion. -/
def isWordChar (c : Char) : Bool := c.isAlphanum || c = '_'

def lastIsWord (l : List Char) : Bool :=
  match l.getLast? with
  | some c => isWordChar c
  | none => false

/-- The word-boundary assertion after a match: exactly one of the two
neighbouring sides is a word character (the string edge counts as
non-word). -/
def boundaryAfter (prevIsWord : Bool) (rest : List Char) : Bool :=
  match rest with
  | [] => prevIsWord
  | c :: _ => prevIsWord != isWordChar c

/-- Global replace of hash-name followed by a word boundary (the regex
built from the tag name; tag names are assumed free of regex
metacharacters). -/
def replaceHashTagWith (oldName replacement : List Char) : List Char → List Char
  | [] => []
  | c :: rest =>
    if c = '#' ∧ oldName.isPrefixOf rest ∧
        boundaryAfter (lastIsWord ('#' :: oldName))
          (rest.drop oldName.length) = true then
      replacement ++ replaceHashTagWith oldName replacement (rest.drop oldName.length)
    else c :: replaceHashTagWith oldName replacement rest
termination_by l => l.length
decreasing_by
  · simp only [List.length_cons, List.length_drop]
    omega
  · simp

/-- Global collapse of whitespace runs to one space. -/
def collapseWs : List Char → List Char
  | [] => []
  | c :: rest =>
    if isWsChar c then ' ' :: collapseWs (rest.dropWhile isWsChar)
    else c :: collapseWs rest
termination_by l => l.length
decreasing_by
  · have := (List.dropWhile_sublist (p := isWsChar) (l := rest)).length_le
    simp only [List.length_cons]
    omega
  · simp

structure MutationResult where
  success : Bool
  updatedFiles : List String
deriving DecidableEq

/-- The per-file loop of renameTag: read failures are caught and skipped;
files containing the tag are rewritten; a failed write is caught and the
file is left out of the updated list.  Returns the updated paths and the
performed writes. -/
def renameLoop (read : String → Except Unit String) (modifyOk : String → Bool)
    (oldName newName : String) : List String → List String × List (String × String)
  | [] => ([], [])
  | f :: fs =>
    let (ups, writes) := renameLoop read modifyOk oldName newName fs
    match read f with
    | Except.error _ => (ups, writes)
    | Except.ok content =>
      if oldName ∈ extractTagsFromContent content.data then
        if modifyOk f then
          (f :: ups,
            (f, String.mk (replaceHashTagWith oldName.data
              ('#' :: newName.data) content.data)) :: writes)
        else (ups, writes)
      else (ups, writes)

/-- renameTag (src/tag-manager.ts lines 106-137): loop, then clear the
cache and reset the timestamp, then return success unconditionally. -/
def renameTag (files : List String) (read : String → Except Unit String)
    (modifyOk : String → Bool) (oldName newName : String) :
    MutationResult × List (String × String) × TMState :=
  let (ups, writes) := renameLoop read modifyOk oldName newName files
  ({ success := true, updatedFiles := ups }, writes,
    { tagCache := [], lastCacheUpdate := 0 })

/-- The per-file loop of deleteTag: the occurrence is removed and the
whitespace normalized. -/
def deleteLoop (read : String → Except Unit String) (modifyOk : String → Bool)
    (tagName : String) : List String → List String × List (String × String)
  | [] => ([], [])
  | f :: fs =>
    let (ups, writes) := deleteLoop read modifyOk tagName fs
    match read f with
    | Except.error _ => (ups, writes)
    | Except.ok content =>
      if tagName ∈ extractTagsFromContent content.data then
        if modifyOk f then
          (f :: ups,
            (f, String.mk (trimChars (collapseWs
              (replaceHashTagWith tagName.data [] content.data)))) :: writes)
        else (ups, writes)
      else (ups, writes)

/-- deleteTag (src/tag-manager.ts lines 139-170). -/
def deleteTag (files : List String) (read : String → Except Unit String)
    (modifyOk : String → Bool) (tagName : String) :
    MutationResult × List (String × String) × TMState :=
  let (ups, writes) := deleteLoop read modifyOk tagName files
  ({ success := true, updatedFiles := ups }, writes,
    { tagCache := [], lastCacheUpdate := 0 })

def countOf (cache : List (String × TagMetadata)) (t : String) : Nat :=
  match cache.find? (fun e => e.1 = t) with
  | some e => e.2.count
  | none => 0

def notesOf (cache : List (String × TagMetadata)) (t : String) : List String :=
  match cache.find? (fun e => e.1 = t) with
  | some e => e.2.notes
  | none => []

theorem find?_map_keyinv (f : String × TagMetadata → String × TagMetadata)
    (hf : ∀ e, (f e).1 = e.1) (t : String) :
    ∀ cache : List (String × TagMetadata),
      (cache.map f).find? (fun e => e.1 = t) =
        (cache.find? (fun e => e.1 = t)).map f := by
  intro cache
  induction cache with
  | nil => rfl
  | cons e es ih =>
    by_cases he : e.1 = t
    · simp only [List.map_cons]
      rw [List.find?_cons_of_pos _ (by simp [hf, he]),
        List.find?_cons_of_pos _ (by simp [he])]
      rfl
    · simp only [List.map_cons]
      rw [List.find?_cons_of_neg _ (by simp [hf, he]),
        List.find?_cons_of_neg _ (by simp [he])]
      exact ih

/-- The entry update performed by bump on an existing entry. -/
def bumpUpd (p : String) (m : TagMetadata) : TagMetadata :=
  { m with count := m.count + 1, notes := m.notes ++ [p] }

def freshEntry (p tag : String) : TagMetadata :=
  { name := tag, count := 1, notes := [p],
    color := generateTagColor tag, description := "" }

theorem bump_find? (p s t : String) (cache : List (String × TagMetadata)) :
    (bump p cache s).find? (fun e => e.1 = t) =
      if t = s then
        match cache.find? (fun e => e.1 = t) with
        | some e => some (e.1, bumpUpd p e.2)
        | none => some (s, freshEntry p s)
      else cache.find? (fun e => e.1 = t) := by
  unfold bump
  by_cases hany : cache.any (fun e => e.1 = s) = true
  · rw [if_pos hany]
    rw [find?_map_keyinv _ (fun e => by dsimp only; split <;> rfl) t]
    by_cases hts : t = s
    · subst hts
      rw [if_pos rfl]
      cases hfind : cache.find? (fun e => e.1 = t) with
      | none =>
        exfalso
        obtain ⟨e, hmem, he⟩ := List.any_eq_true.mp hany
        exact absurd he (by simpa using List.find?_eq_none.mp hfind e hmem)
      | some e =>
        have het : e.1 = t := by simpa using List.find?_some hfind
        simp [het, bumpUpd]
    · rw [if_neg hts]
      cases hfind : cache.find? (fun e => e.1 = t) with
      | none => rfl
      | some e =>
        have het : e.1 = t := by simpa using List.find?_some hfind
        simp [het, hts]
  · rw [if_neg hany]
    rw [List.find?_append]
    by_cases hts : t = s
    · subst hts
      have hnone : cache.find? (fun e => e.1 = t) = none := by
        rw [List.find?_eq_none]
        intro e hmem he
        exact hany (List.any_eq_true.mpr ⟨e, hmem, he⟩)
      rw [hnone, if_pos rfl]
      simp [List.find?, freshEntry]
    · rw [if_neg hts]
      cases hfind : cache.find? (fun e => e.1 = t) with
      | none =>
        simp only [Option.none_or]
        rw [List.find?_cons_of_neg _ (by simp [hts, Ne.symm]), List.find?_nil]
      | some e => rfl

theorem bump_effect (p s t : String) (cache : List (String × TagMetadata)) :
    countOf (bump p cache s) t = countOf cache t + (if t = s then 1 else 0) ∧
    notesOf (bump p cache s) t = notesOf cache t ++ (if t = s then [p] else []) := by
  unfold countOf notesOf
  rw [bump_find?]
  by_cases hts : t = s
  · subst hts
    rw [if_pos rfl, if_pos rfl, if_pos rfl]
    cases hfind : cache.find? (fun e => e.1 = t) with
    | none => simp [freshEntry]
    | some e => simp [bumpUpd]
  · rw [if_neg hts, if_neg hts, if_neg hts]
    cases cache.find? (fun e => e.1 = t) with
    | none => simp
    | some e => simp

theorem foldl_bump_effect (p : String) :
    ∀ (T : List String), T.Nodup →
      ∀ (cache : List (String × TagMetadata)) (t : String),
        countOf (T.foldl (bump p) cache) t =
          countOf cache t + (if t ∈ T then 1 else 0) ∧
        notesOf (T.foldl (bump p) cache) t =
          notesOf cache t ++ (if t ∈ T then [p] else []) := by
  intro T
  induction T with
  | nil => intro _ cache t; simp
  | cons s ss ih =>
    intro hnd cache t
    obtain ⟨hs, hnd2⟩ := List.nodup_cons.mp hnd
    rw [List.foldl_cons]
    obtain ⟨hc, hn⟩ := ih hnd2 (bump p cache s) t
    obtain ⟨bc, bn⟩ := bump_effect p s t cache
    rw [hc, hn, bc, bn]
    by_cases hts : t = s
    · subst hts
      have htm : t ∉ ss := hs
      simp [htm]
    · by_cases htm : t ∈ ss <;> simp [hts, htm]

/-- Whether the tag occurs in this file according to the content-based
per-note tag extraction (which deduplicates within one note). -/
def tagOccursIn (t : String) (f : String × Except Unit String) : Bool :=
  match f.2 with
  | Except.ok c => t ∈ extractTagsFromContent c.data
  | Except.error _ => false

theorem addFile_effect (cache : List (String × TagMetadata))
    (f : String × Except Unit String) (t : String) :
    countOf (addFile cache f) t =
      countOf cache t + (if tagOccursIn t f then 1 else 0) ∧
    notesOf (addFile cache f) t =
      notesOf cache t ++ (if tagOccursIn t f then [f.1] else []) := by
  unfold addFile tagOccursIn
  cases hf : f.2 with
  | error e => simp
  | ok content =>
    have hnd : (extractTagsFromContent content.data).Nodup :=
      jsSetDedup_nodup _
    obtain ⟨hc, hn⟩ := foldl_bump_effect f.1 _ hnd cache t
    rw [hc, hn]
    by_cases hm : t ∈ extractTagsFromContent content.data <;> simp [hm]

theorem buildTagCache_effect :
    ∀ (files : List (String × Except Unit String))
      (cache : List (String × TagMetadata)) (t : String),
      countOf (files.foldl addFile cache) t =
        countOf cache t + (files.filter (tagOccursIn t)).length ∧
      notesOf (files.foldl addFile cache) t =
        notesOf cache t ++ (files.filter (tagOccursIn t)).map Prod.fst := by
  intro files
  induction files with
  | nil => intro cache t; simp
  | cons f fs ih =>
    intro cache t
    rw [List.foldl_cons]
    obtain ⟨hc, hn⟩ := ih (addFile cache f) t
    obtain ⟨ac, an⟩ := addFile_effect cache f t
    rw [hc, hn, ac, an, List.filter_cons]
    by_cases ho : tagOccursIn t f = true <;> simp [ho] <;> omega

/-- C2 counterexample: a note whose content carries the same hashtag twice.
The per-note extraction deduplicates, so the cache records count 1 and a
single note entry, while the occurrence count of the tag in the vault
is 2. -/
theorem claim_C2_counterexample :
    ((buildTagCache [("n.md", Except.ok "#a #a")]).map
        (fun e => (e.1, e.2.count, e.2.notes)) = [("a", 1, ["n.md"])]) ∧
    (hashtagScan ("#a #a".data)).count "a" = 2 ∧ (1 : Nat) ≠ 2 := by
  refine ⟨by decide, by decide, by decide⟩

/-- C2 (amended): After a tag-index refresh, for every tag string, the
count equals the number of readable notes whose per-note deduplicated tag
extraction contains the tag (multiple occurrences within one note count
once), and the notes list holds exactly one path entry per such note, in
vault order. -/
theorem claim_C2_tag_counts (files : List (String × Except Unit String))
    (t : String) :
    countOf (buildTagCache files) t = (files.filter (tagOccursIn t)).length ∧
    notesOf (buildTagCache files) t =
      (files.filter (tagOccursIn t)).map Prod.fst := by
  have h := buildTagCache_effect files [] t
  unfold buildTagCache
  simpa [countOf, notesOf, List.find?] using h

theorem refresh_empty_scans (now : Nat)
    (files : List (String × Except Unit String)) :
    refreshTagCache ⟨[], 0⟩ now files =
      (⟨buildTagCache files, now⟩, true) := by
  unfold refreshTagCache
  simp

theorem refresh_fresh_no_scan (files : List (String × Except Unit String))
    (now1 now2 : Nat) (hne : buildTagCache files ≠ [])
    (hwin : now2 - now1 < CACHE_DURATION) :
    refreshTagCache ⟨buildTagCache files, now1⟩ now2 files =
      (⟨buildTagCache files, now1⟩, false) := by
  unfold refreshTagCache
  rw [if_pos ⟨hwin, List.length_pos.mpr hne⟩]

/-- C3 counterexample: on a vault without tags the rebuilt cache is empty,
so the cache-validity test (which also requires a non-empty cache) fails
again on the second call within the window: both consecutive calls scan. -/
theorem claim_C3_counterexample :
    (getAllTags ⟨[], 0⟩ 400000 [("n.md", Except.ok "hello")]).2.2 = true ∧
    (getAllTags (getAllTags ⟨[], 0⟩ 400000
        [("n.md", Except.ok "hello")]).2.1 400001
        [("n.md", Except.ok "hello")]).2.2 = true := by
  refine ⟨by decide, by decide⟩

/-- C3 (amended): Starting from an invalidated cache, two consecutive
allTags calls within the five-minute window trigger exactly one underlying
vault scan provided the vault yields at least one tag (the validity test
also requires a non-empty cache, so a tagless vault is rescanned on every
call); and renameTag or deleteTag followed by allTags always triggers a
fresh scan, because both mutations clear the cache and reset the
timestamp. -/
theorem claim_C3_cache_behavior (files : List (String × Except Unit String))
    (now1 now2 : Nat) (hne : buildTagCache files ≠ [])
    (hwin : now2 - now1 < CACHE_DURATION) :
    (getAllTags ⟨[], 0⟩ now1 files).2.2 = true ∧
    (getAllTags (getAllTags ⟨[], 0⟩ now1 files).2.1 now2 files).2.2 = false ∧
    (∀ (fs : List String) (read : String → Except Unit String)
        (modifyOk : String → Bool) (oldName newName : String) (now3 : Nat)
        (files3 : List (String × Except Unit String)),
      (getAllTags (renameTag fs read modifyOk oldName newName).2.2 now3
        files3).2.2 = true) ∧
    (∀ (fs : List String) (read : String → Except Unit String)
        (modifyOk : String → Bool) (tagName : String) (now3 : Nat)
        (files3 : List (String × Except Unit String)),
      (getAllTags (deleteTag fs read modifyOk tagName).2.2 now3
        files3).2.2 = true) := by
  refine ⟨?_, ?_, ?_, ?_⟩
  · simp [getAllTags, refresh_empty_scans]
  · simp [getAllTags, refresh_empty_scans,
      refresh_fresh_no_scan files now1 now2 hne hwin]
  · intro fs read modifyOk oldName newName now3 files3
    simp [getAllTags, renameTag, refresh_empty_scans]
  · intro fs read modifyOk tagName now3 files3
    simp [getAllTags, deleteTag, refresh_empty_scans]

theorem claim_C3_witness :
    (buildTagCache [("n.md", Except.ok "#a")] ≠ [] ∧
      (20 : Nat) - 10 < CACHE_DURATION) ∧
    ((getAllTags ⟨[], 0⟩ 10 [("n.md", Except.ok "#a")]).2.2 = true ∧
     (getAllTags (getAllTags ⟨[], 0⟩ 10
         [("n.md", Except.ok "#a")]).2.1 20
         [("n.md", Except.ok "#a")]).2.2 = false ∧
     (∀ (fs : List String) (read : String → Except Unit String)
         (modifyOk : String → Bool) (oldName newName : String) (now3 : Nat)
         (files3 : List (String × Except Unit String)),
       (getAllTags (renameTag fs read modifyOk oldName newName).2.2 now3
         files3).2.2 = true) ∧
     (∀ (fs : List String) (read : String → Except Unit String)
         (modifyOk : String → Bool) (tagName : String) (now3 : Nat)
         (files3 : List (String × Except Unit String)),
       (getAllTags (deleteTag fs read modifyOk tagName).2.2 now3
         files3).2.2 = true)) :=
  ⟨⟨by decide, by decide⟩,
    claim_C3_cache_behavior [("n.md", Except.ok "#a")] 10 20
      (by decide) (by decide)⟩

theorem renameLoop_updated (read : String → Except Unit String)
    (modifyOk : String → Bool) (oldName newName : String) :
    ∀ files : List String,
      (renameLoop read modifyOk oldName newName files).1 =
        files.filter (fun f =>
          match read f with
          | Except.ok c =>
            decide (oldName ∈ extractTagsFromContent c.data) && modifyOk f
          | Except.error _ => false) := by
  intro files
  induction files with
  | nil => rfl
  | cons f fs ih =>
    rw [renameLoop, List.filter_cons]
    cases hr : read f with
    | error e => simp [hr, ih]
    | ok c =>
      by_cases hm : oldName ∈ extractTagsFromContent c.data
      · by_cases hw : modifyOk f = true
        · simp [hr, hm, hw, ih]
        · simp [hr, hm, hw, ih]
      · simp [hr, hm, ih]

theorem deleteLoop_updated (read : String → Except Unit String)
    (modifyOk : String → Bool) (tagName : String) :
    ∀ files : List String,
      (deleteLoop read modifyOk tagName files).1 =
        files.filter (fun f =>
          match read f with
          | Except.ok c =>
            decide (tagName ∈ extractTagsFromContent c.data) && modifyOk f
          | Except.error _ => false) := by
  intro files
  induction files with
  | nil => rfl
  | cons f fs ih =>
    rw [deleteLoop, List.filter_cons]
    cases hr : read f with
    | error e => simp [hr, ih]
    | ok c =>
      by_cases hm : tagName ∈ extractTagsFromContent c.data
      · by_cases hw : modifyOk f = true
        · simp [hr, hm, hw, ih]
        · simp [hr, hm, hw, ih]
      · simp [hr, hm, ih]

/-- C10: renameTag and deleteTag always return success true, regardless of
whether reading or writing any individual file failed (per-file errors are
caught, and the failed file is merely excluded from the returned
updatedFiles list), and both operations unconditionally clear the tag
cache and reset the cache timestamp before returning. -/
theorem claim_C10_mutations_always_succeed (files : List String)
    (read : String → Except Unit String) (modifyOk : String → Bool)
    (oldName newName tagName : String) :
    (renameTag files read modifyOk oldName newName).1.success = true ∧
    (renameTag files read modifyOk oldName newName).2.2 =
      { tagCache := [], lastCacheUpdate := 0 } ∧
    (renameTag files read modifyOk oldName newName).1.updatedFiles =
      files.filter (fun f =>
        match read f with
        | Except.ok c =>
          decide (oldName ∈ extractTagsFromContent c.data) && modifyOk f
        | Except.error _ => false) ∧
    (deleteTag files read modifyOk tagName).1.success = true ∧
    (deleteTag files read modifyOk tagName).2.2 =
      { tagCache := [], lastCacheUpdate := 0 } ∧
    (deleteTag files read modifyOk tagName).1.updatedFiles =
      files.filter (fun f =>
        match read f with
        | Except.ok c =>
          decide (tagName ∈ extractTagsFromContent c.data) && modifyOk f
        | Except.error _ => false) := by
  refine ⟨rfl, rfl, ?_, rfl, rfl, ?_⟩
  · exact renameLoop_updated read modifyOk oldName newName files
  · exact deleteLoop_updated read modifyOk tagName files

end TagManager

namespace NoteProcessor

/-- C4: For every note, the extracted title is determined by this
precedence: the frontmatter title field if present and non-empty; otherwise
the text of the first line anywhere in the raw text matching a level-1
heading; otherwise the fallback filename-derived name. -/
theorem claim_C4_title_precedence (metadata : Option CachedMetadata)
    (content : List Char) (basename : String) :
    extractTitle metadata content basename = titleSpec metadata content basename := by
  unfold extractTitle titleSpec
  cases hfm : (metadata.bind (·.frontmatter)).bind (·.title) with
  | none =>
    simp [jsTruthyStr, titleSpec.titleFallback, firstH1_eq_spec]
  | some t =>
    by_cases ht : t = ""
    · subst ht
      simp [jsTruthyStr, titleSpec.titleFallback, firstH1_eq_spec]
    · simp [jsTruthyStr, ht]

/-! ### Content cleaning (cleanContent, part_000 lines 46-62) -/

def eqChar (c : Char) : Char → Bool := fun y => y = c

def neChar (c : Char) : Char → Bool := fun y => ! (y = c)

/-- Rest of the input after the first occurrence of the pattern (the lazy
body of the frontmatter regex stops at the earliest occurrence). -/
def dropAfterInfix (pat : List Char) : List Char → Option (List Char)
  | [] => if pat.isPrefixOf ([] : List Char) then some [] else none
  | x :: rest =>
    if pat.isPrefixOf (x :: rest) then some ((x :: rest).drop pat.length)
    else dropAfterInfix pat rest

/-- Strip a leading frontmatter block: three dashes, newline, lazy body,
newline, three dashes, newline; anchored at the start of the content. -/
def stripFrontmatter (content : List Char) : List Char :=
  if content.take 4 = ("---\n".data) then
    match dropAfterInfix ("\n---\n".data) (content.drop 4) with
    | some rest => rest
    | none => content
  else content

/-- Scanner for a global regex of the form open-open body close-close with
a nonempty body free of the closing delimiter (wiki links with brackets,
bold with stars, highlight with equals, strikethrough with tildes),
replacing each match by its body; on a failed attempt the engine advances
one character. -/
def replaceDouble (o c : Char) : List Char → List Char
  | [] => []
  | x :: rest =>
    if x = o ∧ rest.take 1 = [o] then
      if (rest.drop 1).takeWhile (neChar c) ≠ [] ∧
          ((rest.drop 1).drop ((rest.drop 1).takeWhile (neChar c)).length).take 2
            = [c, c] then
        (rest.drop 1).takeWhile (neChar c) ++
          replaceDouble o c
            ((rest.drop 1).drop (((rest.drop 1).takeWhile (neChar c)).length + 2))
      else x :: replaceDouble o c rest
    else x :: replaceDouble o c rest
termination_by l => l.length
decreasing_by
  · simp only [List.length_drop, List.length_cons]
    omega
  · simp
  · simp

/-- Scanner for the italic regex: star, nonempty star-free body, star. -/
def replaceSingle (d : Char) : List Char → List Char
  | [] => []
  | x :: rest =>
    if x = d then
      if rest.takeWhile (neChar d) ≠ [] ∧
          (rest.drop (rest.takeWhile (neChar d)).length).take 1 = [d] then
        rest.takeWhile (neChar d) ++
          replaceSingle d (rest.drop ((rest.takeWhile (neChar d)).length + 1))
      else x :: replaceSingle d rest
    else x :: replaceSingle d rest
termination_by l => l.length
decreasing_by
  · simp only [List.length_drop, List.length_cons]
    omega
  · simp
  · simp

/-- Scanner for the markdown-link regex: bracketed nonempty display text
then parenthesised nonempty url, replaced by the display text. -/
def replaceMdLink : List Char → List Char
  | [] => []
  | x :: rest =>
    if x = '[' then
      if rest.takeWhile (neChar ']') ≠ [] ∧
          (rest.drop (rest.takeWhile (neChar ']')).length).take 2 = [']', '('] ∧
          ((rest.drop ((rest.takeWhile (neChar ']')).length + 2)).takeWhile
            (neChar ')') ≠ []) ∧
          ((rest.drop ((rest.takeWhile (neChar ']')).length + 2)).drop
            ((rest.drop ((rest.takeWhile (neChar ']')).length + 2)).takeWhile
              (neChar ')')).length).take 1 = [')'] then
        rest.takeWhile (neChar ']') ++
          replaceMdLink
            ((rest.drop ((rest.takeWhile (neChar ']')).length + 2)).drop
              (((rest.drop ((rest.takeWhile (neChar ']')).length + 2)).takeWhile
                (neChar ')')).length + 1))
      else x :: replaceMdLink rest
    else x :: replaceMdLink rest
termination_by l => l.length
decreasing_by
  · simp only [List.length_drop, List.length_cons]
    omega
  · simp
  · simp

/-- Scanner for the multiline heading-marker regex: at a line start, one to
six hashes followed by greedy whitespace (which may swallow newlines) are
removed; the flag tracks whether the current position is a line start. -/
def stripHeadings : Bool → List Char → List Char
  | _, [] => []
  | atStart, x :: rest =>
    if atStart = true ∧ x = '#' then
      -- the run of hashes is the leading hash plus the following ones
      if (rest.takeWhile (eqChar '#')).length + 1 ≤ 6 ∧
          (rest.drop (rest.takeWhile (eqChar '#')).length).takeWhile
            isWsChar ≠ [] then
        stripHeadings
          (decide (((rest.drop (rest.takeWhile (eqChar '#')).length).takeWhile
            isWsChar).getLast? = some '\n'))
          ((rest.drop (rest.takeWhile (eqChar '#')).length).drop
            ((rest.drop (rest.takeWhile (eqChar '#')).length).takeWhile
              isWsChar).length)
      else x :: stripHeadings (decide (x = '\n')) rest
    else x :: stripHeadings (decide (x = '\n')) rest
termination_by _ l => l.length
decreasing_by
  · simp only [List.length_drop, List.length_cons]
    omega
  · simp
  · simp

def isTagWordChar (c : Char) : Bool := c.isAlphanum || c = '_' || c = '-'

/-- Scanner for the global inline-hashtag removal: a hash followed by a
nonempty run of word characters or hyphens is deleted. -/
def stripHashtags : List Char → List Char
  | [] => []
  | x :: rest =>
    if x = '#' ∧ (rest.takeWhile isTagWordChar).length > 0 then
      stripHashtags (rest.drop (rest.takeWhile isTagWordChar).length)
    else x :: stripHashtags rest
termination_by l => l.length
decreasing_by
  · simp only [List.length_drop, List.length_cons]
    omega
  · simp

/-- Scanner collapsing each run of three or more newlines to exactly
two. -/
def collapseNewlines : List Char → List Char
  | [] => []
  | x :: rest =>
    if x = '\n' then
      -- the newline run is the leading newline plus the following ones
      if 3 ≤ (rest.takeWhile (eqChar '\n')).length + 1 then
        '\n' :: '\n' ::
          collapseNewlines (rest.drop (rest.takeWhile (eqChar '\n')).length)
      else
        '\n' :: rest.takeWhile (eqChar '\n') ++
          collapseNewlines (rest.drop (rest.takeWhile (eqChar '\n')).length)
    else x :: collapseNewlines rest
termination_by l => l.length
decreasing_by
  · simp only [List.length_drop, List.length_cons]
    omega
  · simp only [List.length_drop, List.length_cons]
    omega
  · simp

/-- Trim of leading and trailing whitespace. -/
def trimWs (l : List Char) : List Char :=
  ((l.dropWhile isWsChar).reverse.dropWhile isWsChar).reverse

/-- cleanContent (part_000 lines 46-62): the fixed ordered cleaning
sequence, each transformation applied to the result of the previous one:
frontmatter, wiki links, markdown links, heading markers, bold, italic,
highlight, strikethrough, hashtags, newline collapse, trim. -/
def cleanContent (content : List Char) : List Char :=
  trimWs (collapseNewlines (stripHashtags (replaceDouble '~' '~'
    (replaceDouble '=' '=' (replaceSingle '*' (replaceDouble '*' '*'
      (stripHeadings true (replaceMdLink (replaceDouble '[' ']'
        (stripFrontmatter content))))))))))

theorem takeWhile_append_stop {P : Char → Bool} (l1 : List Char) (y : Char)
    (l2 : List Char) (h1 : ∀ ch ∈ l1, P ch = true) (hy : P y = false) :
    (l1 ++ y :: l2).takeWhile P = l1 := by
  induction l1 with
  | nil => simp [List.takeWhile_cons_of_neg, hy]
  | cons a l ih =>
    rw [List.cons_append, List.takeWhile_cons_of_pos (h1 a (by simp))]
    rw [ih (fun ch hch => h1 ch (by simp [hch]))]

theorem replaceDouble_skip (o c : Char) (p l : List Char)
    (hp : ∀ ch ∈ p, ch ≠ o) :
    replaceDouble o c (p ++ l) = p ++ replaceDouble o c l := by
  induction p with
  | nil => simp
  | cons a p2 ih =>
    have ha : a ≠ o := hp a (by simp)
    rw [List.cons_append, replaceDouble, if_neg (by simp [ha])]
    rw [ih (fun ch hch => hp ch (by simp [hch]))]
    rfl

theorem replaceDouble_match (o c : Char) (body l : List Char)
    (hb : ∀ ch ∈ body, ch ≠ c) (hne : body ≠ []) :
    replaceDouble o c (o :: o :: (body ++ c :: c :: l)) =
      body ++ replaceDouble o c l := by
  rw [replaceDouble, if_pos ⟨rfl, by simp⟩]
  simp only [List.drop_succ_cons, List.drop_zero]
  have htw : (body ++ c :: c :: l).takeWhile (neChar c) = body :=
    takeWhile_append_stop body c (c :: l)
      (fun ch hch => by simp [neChar, hb ch hch]) (by simp [neChar])
  rw [htw]
  have hd1 : (body ++ c :: c :: l).drop body.length = c :: c :: l :=
    List.drop_left body (c :: c :: l)
  rw [hd1]
  rw [if_pos ⟨hne, by simp⟩]
  have hd2 : (body ++ c :: c :: l).drop (body.length + 2) = l := by
    rw [List.drop_append]
    rfl
  rw [hd2]

theorem replaceDouble_nil (o c : Char) : replaceDouble o c [] = [] := by
  rw [replaceDouble]

theorem replaceDouble_id (o c : Char) (l : List Char)
    (h : ∀ ch ∈ l, ch ≠ o) : replaceDouble o c l = l := by
  have hs := replaceDouble_skip o c l [] h
  simpa [replaceDouble_nil] using hs

theorem replaceSingle_id (d : Char) (l : List Char)
    (h : ∀ ch ∈ l, ch ≠ d) : replaceSingle d l = l := by
  induction l with
  | nil => rw [replaceSingle]
  | cons a rest ih =>
    have ha : a ≠ d := h a (by simp)
    rw [replaceSingle, if_neg (by simp [ha])]
    rw [ih (fun ch hch => h ch (by simp [hch]))]

theorem replaceMdLink_id (l : List Char) (h : ∀ ch ∈ l, ch ≠ '[') :
    replaceMdLink l = l := by
  induction l with
  | nil => rw [replaceMdLink]
  | cons a rest ih =>
    have ha : a ≠ '[' := h a (by simp)
    rw [replaceMdLink, if_neg (by simp [ha])]
    rw [ih (fun ch hch => h ch (by simp [hch]))]

theorem stripHeadings_no_hash (l : List Char) (h : ∀ ch ∈ l, ch ≠ '#') :
    ∀ b, stripHeadings b l = l := by
  induction l with
  | nil => intro b; rw [stripHeadings]
  | cons a rest ih =>
    intro b
    have ha : a ≠ '#' := h a (by simp)
    rw [stripHeadings, if_neg (by simp [ha])]
    rw [ih (fun ch hch => h ch (by simp [hch]))]

theorem stripHashtags_id (l : List Char) (h : ∀ ch ∈ l, ch ≠ '#') :
    stripHashtags l = l := by
  induction l with
  | nil => rw [stripHashtags]
  | cons a rest ih =>
    have ha : a ≠ '#' := h a (by simp)
    rw [stripHashtags, if_neg (by simp [ha])]
    rw [ih (fun ch hch => h ch (by simp [hch]))]

theorem collapseNewlines_skip (p l : List Char)
    (hp : ∀ ch ∈ p, ch ≠ '\n') :
    collapseNewlines (p ++ l) = p ++ collapseNewlines l := by
  induction p with
  | nil => simp
  | cons a p2 ih =>
    have ha : a ≠ '\n' := hp a (by simp)
    rw [List.cons_append, collapseNewlines, if_neg (by simp [ha])]
    rw [ih (fun ch hch => hp ch (by simp [hch]))]
    rfl

theorem collapseNewlines_nil : collapseNewlines [] = [] := by
  rw [collapseNewlines]

theorem collapseNewlines_id (l : List Char) (h : ∀ ch ∈ l, ch ≠ '\n') :
    collapseNewlines l = l := by
  have hs := collapseNewlines_skip l [] h
  simpa [collapseNewlines_nil] using hs

theorem collapseNewlines_single (l : List Char)
    (hl : ∀ ch ∈ l.take 1, ch ≠ '\n') :
    collapseNewlines ('\n' :: l) = '\n' :: collapseNewlines l := by
  rw [collapseNewlines, if_pos rfl]
  have htw : l.takeWhile (eqChar '\n') = [] := by
    cases l with
    | nil => rfl
    | cons y ys =>
      rw [List.takeWhile_cons_of_neg]
      have : y ≠ '\n' := hl y (by simp)
      simp [eqChar, this]
  rw [htw]
  rw [if_neg (by simp)]
  simp

theorem trimWs_subset (l : List Char) : ∀ ch ∈ trimWs l, ch ∈ l := by
  intro ch hch
  unfold trimWs at hch
  rw [List.mem_reverse] at hch
  have h1 := (List.dropWhile_sublist (p := isWsChar)
    (l := (l.dropWhile isWsChar).reverse)).subset hch
  rw [List.mem_reverse] at h1
  exact (List.dropWhile_sublist _).subset h1

/-- Adjacent-pair occurrence test: whether the two-character sequence x y
occurs as a substring. -/
def hasPair (x y : Char) : List Char → Bool
  | a :: b :: rest => (a = x && b = y) || hasPair x y (b :: rest)
  | _ => false

theorem hasPair_false (x y : Char) (l : List Char)
    (h : ∀ ch ∈ l, ch ≠ x) : hasPair x y l = false := by
  induction l with
  | nil => rfl
  | cons a rest ih =>
    cases rest with
    | nil => rfl
    | cons b r2 =>
      rw [hasPair]
      have ha : a ≠ x := h a (by simp)
      simp only [ha, decide_eq_true_eq, Bool.false_and, Bool.false_or,
        decide_eq_false ha, Bool.or_eq_false_iff]
      exact ⟨by simp [ha], ih (fun ch hch => h ch (by simp [hch]))⟩

/-- A character free of every markup construct the cleaning claim is
about. -/
def plainChar (ch : Char) : Bool :=
  decide (ch ≠ '[' ∧ ch ≠ ']' ∧ ch ≠ '*' ∧ ch ≠ '=' ∧ ch ≠ '~' ∧
    ch ≠ '#' ∧ ch ≠ '\n')

theorem plainChar_spec (ch : Char) (h : plainChar ch = true) :
    ch ≠ '[' ∧ ch ≠ ']' ∧ ch ≠ '*' ∧ ch ≠ '=' ∧ ch ≠ '~' ∧
      ch ≠ '#' ∧ ch ≠ '\n' := by
  simpa [plainChar] using h

/-- A segment of an input in which every markup construct occurs singly
(well-formed and non-overlapping): plain text, or one wiki link, bold,
highlight or strikethrough construct. -/
inductive Seg where
  | plain (p : List Char)
  | wiki (w : List Char)
  | bold (b : List Char)
  | highlight (hl : List Char)
  | strike (st : List Char)

def renderSeg : Seg → List Char
  | Seg.plain p => p
  | Seg.wiki w => '[' :: '[' :: (w ++ [']', ']'])
  | Seg.bold b => '*' :: '*' :: (b ++ ['*', '*'])
  | Seg.highlight hl => '=' :: '=' :: (hl ++ ['=', '='])
  | Seg.strike st => '~' :: '~' :: (st ++ ['~', '~'])

def render (segs : List Seg) : List Char := (segs.map renderSeg).join

/-- Well-formedness of one segment: plain bodies everywhere, and a
construct body is nonempty. -/
def segOK : Seg → Bool
  | Seg.plain p => p.all plainChar
  | Seg.wiki w => w.all plainChar && ! w.isEmpty
  | Seg.bold b => b.all plainChar && ! b.isEmpty
  | Seg.highlight hl => hl.all plainChar && ! hl.isEmpty
  | Seg.strike st => st.all plainChar && ! st.isEmpty

def isWiki : Seg → Bool
  | Seg.wiki _ => true
  | _ => false

def isBold : Seg → Bool
  | Seg.bold _ => true
  | _ => false

def isHl : Seg → Bool
  | Seg.highlight _ => true
  | _ => false

def isStrike : Seg → Bool
  | Seg.strike _ => true
  | _ => false

def mapWiki : Seg → Seg
  | Seg.wiki w => Seg.plain w
  | s => s

def mapBold : Seg → Seg
  | Seg.bold b => Seg.plain b
  | s => s

def mapHl : Seg → Seg
  | Seg.highlight hl => Seg.plain hl
  | s => s

def mapStrike : Seg → Seg
  | Seg.strike st => Seg.plain st
  | s => s

theorem render_nil : render [] = [] := rfl

theorem render_cons (s : Seg) (segs : List Seg) :
    render (s :: segs) = renderSeg s ++ render segs := by
  simp [render]

theorem mem_render (segs : List Seg) (ch : Char) (h : ch ∈ render segs) :
    ∃ s ∈ segs, ch ∈ renderSeg s := by
  unfold render at h
  rw [List.mem_join] at h
  obtain ⟨l, hl, hch⟩ := h
  rw [List.mem_map] at hl
  obtain ⟨s, hs, rfl⟩ := hl
  exact ⟨s, hs, hch⟩

theorem renderSeg_ne_bracket (s : Seg) (hok : segOK s = true)
    (hw : isWiki s = false) :
    ∀ ch ∈ renderSeg s, ch ≠ '[' ∧ ch ≠ ']' := by
  intro ch hch
  cases s with
  | plain p =>
    have := (List.all_eq_true.mp hok) ch hch
    exact ⟨(plainChar_spec ch this).1, (plainChar_spec ch this).2.1⟩
  | wiki w => simp [isWiki] at hw
  | bold b =>
    simp only [renderSeg, List.mem_cons, List.mem_append] at hch
    rcases hch with rfl | rfl | (hin | hm)
    · exact ⟨by decide, by decide⟩
    · exact ⟨by decide, by decide⟩
    · have hok2 : (∀ x ∈ b, plainChar x = true) ∧ ¬ b = [] := by
        simpa [segOK] using hok
      have hall := hok2.1 ch hin
      exact ⟨(plainChar_spec ch hall).1, (plainChar_spec ch hall).2.1⟩
    · simp at hm
      rcases hm with rfl | rfl <;> exact ⟨by decide, by decide⟩
  | highlight hl =>
    simp only [renderSeg, List.mem_cons, List.mem_append] at hch
    rcases hch with rfl | rfl | (hin | hm)
    · exact ⟨by decide, by decide⟩
    · exact ⟨by decide, by decide⟩
    · have hok2 : (∀ x ∈ hl, plainChar x = true) ∧ ¬ hl = [] := by
        simpa [segOK] using hok
      have hall := hok2.1 ch hin
      exact ⟨(plainChar_spec ch hall).1, (plainChar_spec ch hall).2.1⟩
    · simp at hm
      rcases hm with rfl | rfl <;> exact ⟨by decide, by decide⟩
  | strike st =>
    simp only [renderSeg, List.mem_cons, List.mem_append] at hch
    rcases hch with rfl | rfl | (hin | hm)
    · exact ⟨by decide, by decide⟩
    · exact ⟨by decide, by decide⟩
    · have hok2 : (∀ x ∈ st, plainChar x = true) ∧ ¬ st = [] := by
        simpa [segOK] using hok
      have hall := hok2.1 ch hin
      exact ⟨(plainChar_spec ch hall).1, (plainChar_spec ch hall).2.1⟩
    · simp at hm
      rcases hm with rfl | rfl <;> exact ⟨by decide, by decide⟩

theorem renderSeg_ne (s : Seg) (hok : segOK s = true) (x : Char)
    (hplain : ∀ ch : Char, plainChar ch = true → ch ≠ x)
    (hwk : isWiki s = true → ('[' ≠ x ∧ ']' ≠ x))
    (hbd : isBold s = true → ('*' : Char) ≠ x)
    (hhl : isHl s = true → ('=' : Char) ≠ x)
    (hst : isStrike s = true → ('~' : Char) ≠ x) :
    ∀ ch ∈ renderSeg s, ch ≠ x := by
  intro ch hch
  cases s with
  | plain p =>
    have hok2 : ∀ c2 ∈ p, plainChar c2 = true := by simpa [segOK] using hok
    exact hplain ch (hok2 ch hch)
  | wiki w =>
    have hok2 : (∀ c2 ∈ w, plainChar c2 = true) ∧ ¬ w = [] := by
      simpa [segOK] using hok
    simp only [renderSeg, List.mem_cons, List.mem_append] at hch
    rcases hch with rfl | rfl | hin | hm
    · exact (hwk rfl).1
    · exact (hwk rfl).1
    · exact hplain ch (hok2.1 ch hin)
    · simp at hm
      rcases hm with rfl | rfl <;> exact (hwk rfl).2
  | bold b =>
    have hok2 : (∀ c2 ∈ b, plainChar c2 = true) ∧ ¬ b = [] := by
      simpa [segOK] using hok
    simp only [renderSeg, List.mem_cons, List.mem_append] at hch
    rcases hch with rfl | rfl | hin | hm
    · exact hbd rfl
    · exact hbd rfl
    · exact hplain ch (hok2.1 ch hin)
    · simp at hm
      rcases hm with rfl | rfl <;> exact hbd rfl
  | highlight hl =>
    have hok2 : (∀ c2 ∈ hl, plainChar c2 = true) ∧ ¬ hl = [] := by
      simpa [segOK] using hok
    simp only [renderSeg, List.mem_cons, List.mem_append] at hch
    rcases hch with rfl | rfl | hin | hm
    · exact hhl rfl
    · exact hhl rfl
    · exact hplain ch (hok2.1 ch hin)
    · simp at hm
      rcases hm with rfl | rfl <;> exact hhl rfl
  | strike st =>
    have hok2 : (∀ c2 ∈ st, plainChar c2 = true) ∧ ¬ st = [] := by
      simpa [segOK] using hok
    simp only [renderSeg, List.mem_cons, List.mem_append] at hch
    rcases hch with rfl | rfl | hin | hm
    · exact hst rfl
    · exact hst rfl
    · exact hplain ch (hok2.1 ch hin)
    · simp at hm
      rcases hm with rfl | rfl <;> exact hst rfl

theorem render_ne (segs : List Seg) (x : Char)
    (h : ∀ s ∈ segs, ∀ ch ∈ renderSeg s, ch ≠ x) :
    ∀ ch ∈ render segs, ch ≠ x := by
  intro ch hch
  obtain ⟨s, hs, hchs⟩ := mem_render segs ch hch
  exact h s hs ch hchs

theorem mapWiki_eq_self (s : Seg) (hw : isWiki s = false) : mapWiki s = s := by
  cases s <;> simp_all [mapWiki, isWiki]

theorem mapBold_eq_self (s : Seg) (hw : isBold s = false) : mapBold s = s := by
  cases s <;> simp_all [mapBold, isBold]

theorem mapHl_eq_self (s : Seg) (hw : isHl s = false) : mapHl s = s := by
  cases s <;> simp_all [mapHl, isHl]

theorem mapStrike_eq_self (s : Seg) (hw : isStrike s = false) :
    mapStrike s = s := by
  cases s <;> simp_all [mapStrike, isStrike]

theorem segOK_mapWiki (s : Seg) (h : segOK s = true) :
    segOK (mapWiki s) = true := by
  cases s <;> simp_all [mapWiki, segOK]

theorem segOK_mapBold (s : Seg) (h : segOK s = true) :
    segOK (mapBold s) = true := by
  cases s <;> simp_all [mapBold, segOK]

theorem segOK_mapHl (s : Seg) (h : segOK s = true) :
    segOK (mapHl s) = true := by
  cases s <;> simp_all [mapHl, segOK]

theorem segOK_mapStrike (s : Seg) (h : segOK s = true) :
    segOK (mapStrike s) = true := by
  cases s <;> simp_all [mapStrike, segOK]

theorem all_segOK_map (f : Seg → Seg)
    (hf : ∀ s, segOK s = true → segOK (f s) = true) (segs : List Seg)
    (h : segs.all segOK = true) : (segs.map f).all segOK = true := by
  rw [List.all_eq_true] at h ⊢
  intro s hs
  rw [List.mem_map] at hs
  obtain ⟨s0, hs0, rfl⟩ := hs
  exact hf s0 (h s0 hs0)

theorem isWiki_mapWiki (s : Seg) : isWiki (mapWiki s) = false := by
  cases s <;> rfl

theorem isBold_mapBold (s : Seg) : isBold (mapBold s) = false := by
  cases s <;> rfl

theorem isHl_mapHl (s : Seg) : isHl (mapHl s) = false := by
  cases s <;> rfl

theorem isStrike_mapStrike (s : Seg) : isStrike (mapStrike s) = false := by
  cases s <;> rfl

theorem isWiki_mapBold (s : Seg) : isWiki (mapBold s) = isWiki s := by
  cases s <;> rfl

theorem isWiki_mapHl (s : Seg) : isWiki (mapHl s) = isWiki s := by
  cases s <;> rfl

theorem isWiki_mapStrike (s : Seg) : isWiki (mapStrike s) = isWiki s := by
  cases s <;> rfl

theorem isBold_mapHl (s : Seg) : isBold (mapHl s) = isBold s := by
  cases s <;> rfl

theorem isBold_mapStrike (s : Seg) : isBold (mapStrike s) = isBold s := by
  cases s <;> rfl

theorem isHl_mapStrike (s : Seg) : isHl (mapStrike s) = isHl s := by
  cases s <;> rfl

theorem stage_wiki (segs : List Seg) (hok : segs.all segOK = true) :
    replaceDouble '[' ']' (render segs) = render (segs.map mapWiki) := by
  induction segs with
  | nil => simp [render_nil, replaceDouble_nil]
  | cons s ss ih =>
    have hok1 : segOK s = true := by
      simp only [List.all_cons, Bool.and_eq_true] at hok; exact hok.1
    have hok2 : ss.all segOK = true := by
      simp only [List.all_cons, Bool.and_eq_true] at hok; exact hok.2
    rw [render_cons, List.map_cons, render_cons]
    by_cases hw : isWiki s = true
    · cases s with
      | wiki w =>
        have hok3 : (∀ c2 ∈ w, plainChar c2 = true) ∧ ¬ w = [] := by
          simpa [segOK] using hok1
        have hshape : renderSeg (Seg.wiki w) ++ render ss =
            '[' :: '[' :: (w ++ ']' :: ']' :: render ss) := by
          simp [renderSeg]
        rw [hshape, replaceDouble_match '[' ']' w (render ss)
          (fun ch hch => (plainChar_spec ch (hok3.1 ch hch)).2.1) hok3.2,
          ih hok2]
        rfl
      | plain p => simp [isWiki] at hw
      | bold b => simp [isWiki] at hw
      | highlight hl => simp [isWiki] at hw
      | strike st => simp [isWiki] at hw
    · have hwf : isWiki s = false := by simpa using hw
      have hskip : ∀ ch ∈ renderSeg s, ch ≠ '[' := fun ch hch =>
        renderSeg_ne s hok1 '[' (fun c2 hc2 => (plainChar_spec c2 hc2).1)
          (fun hx => absurd hx (by simp [hwf]))
          (fun _ => by decide) (fun _ => by decide) (fun _ => by decide)
          ch hch
      rw [replaceDouble_skip '[' ']' (renderSeg s) (render ss) hskip, ih hok2,
        mapWiki_eq_self s hwf]

theorem stage_bold (segs : List Seg) (hok : segs.all segOK = true) :
    replaceDouble '*' '*' (render segs) = render (segs.map mapBold) := by
  induction segs with
  | nil => simp [render_nil, replaceDouble_nil]
  | cons s ss ih =>
    have hok1 : segOK s = true := by
      simp only [List.all_cons, Bool.and_eq_true] at hok; exact hok.1
    have hok2 : ss.all segOK = true := by
      simp only [List.all_cons, Bool.and_eq_true] at hok; exact hok.2
    rw [render_cons, List.map_cons, render_cons]
    by_cases hw : isBold s = true
    · cases s with
      | bold b =>
        have hok3 : (∀ c2 ∈ b, plainChar c2 = true) ∧ ¬ b = [] := by
          simpa [segOK] using hok1
        have hshape : renderSeg (Seg.bold b) ++ render ss =
            '*' :: '*' :: (b ++ '*' :: '*' :: render ss) := by
          simp [renderSeg]
        rw [hshape, replaceDouble_match '*' '*' b (render ss)
          (fun ch hch => (plainChar_spec ch (hok3.1 ch hch)).2.2.1) hok3.2,
          ih hok2]
        rfl
      | plain p => simp [isBold] at hw
      | wiki w => simp [isBold] at hw
      | highlight hl => simp [isBold] at hw
      | strike st => simp [isBold] at hw
    · have hwf : isBold s = false := by simpa using hw
      have hskip : ∀ ch ∈ renderSeg s, ch ≠ '*' := fun ch hch =>
        renderSeg_ne s hok1 '*' (fun c2 hc2 => (plainChar_spec c2 hc2).2.2.1)
          (fun _ => by decide) (fun hx => absurd hx (by simp [hwf]))
          (fun _ => by decide) (fun _ => by decide)
          ch hch
      rw [replaceDouble_skip '*' '*' (renderSeg s) (render ss) hskip, ih hok2,
        mapBold_eq_self s hwf]

theorem stage_hl (segs : List Seg) (hok : segs.all segOK = true) :
    replaceDouble '=' '=' (render segs) = render (segs.map mapHl) := by
  induction segs with
  | nil => simp [render_nil, replaceDouble_nil]
  | cons s ss ih =>
    have hok1 : segOK s = true := by
      simp only [List.all_cons, Bool.and_eq_true] at hok; exact hok.1
    have hok2 : ss.all segOK = true := by
      simp only [List.all_cons, Bool.and_eq_true] at hok; exact hok.2
    rw [render_cons, List.map_cons, render_cons]
    by_cases hw : isHl s = true
    · cases s with
      | highlight hl =>
        have hok3 : (∀ c2 ∈ hl, plainChar c2 = true) ∧ ¬ hl = [] := by
          simpa [segOK] using hok1
        have hshape : renderSeg (Seg.highlight hl) ++ render ss =
            '=' :: '=' :: (hl ++ '=' :: '=' :: render ss) := by
          simp [renderSeg]
        rw [hshape, replaceDouble_match '=' '=' hl (render ss)
          (fun ch hch => (plainChar_spec ch (hok3.1 ch hch)).2.2.2.1) hok3.2,
          ih hok2]
        rfl
      | plain p => simp [isHl] at hw
      | wiki w => simp [isHl] at hw
      | bold b => simp [isHl] at hw
      | strike st => simp [isHl] at hw
    · have hwf : isHl s = false := by simpa using hw
      have hskip : ∀ ch ∈ renderSeg s, ch ≠ '=' := fun ch hch =>
        renderSeg_ne s hok1 '='
          (fun c2 hc2 => (plainChar_spec c2 hc2).2.2.2.1)
          (fun _ => by decide) (fun _ => by decide)
          (fun hx => absurd hx (by simp [hwf])) (fun _ => by decide)
          ch hch
      rw [replaceDouble_skip '=' '=' (renderSeg s) (render ss) hskip, ih hok2,
        mapHl_eq_self s hwf]

theorem stage_strike (segs : List Seg) (hok : segs.all segOK = true) :
    replaceDouble '~' '~' (render segs) = render (segs.map mapStrike) := by
  induction segs with
  | nil => simp [render_nil, replaceDouble_nil]
  | cons s ss ih =>
    have hok1 : segOK s = true := by
      simp only [List.all_cons, Bool.and_eq_true] at hok; exact hok.1
    have hok2 : ss.all segOK = true := by
      simp only [List.all_cons, Bool.and_eq_true] at hok; exact hok.2
    rw [render_cons, List.map_cons, render_cons]
    by_cases hw : isStrike s = true
    · cases s with
      | strike st =>
        have hok3 : (∀ c2 ∈ st, plainChar c2 = true) ∧ ¬ st = [] := by
          simpa [segOK] using hok1
        have hshape : renderSeg (Seg.strike st) ++ render ss =
            '~' :: '~' :: (st ++ '~' :: '~' :: render ss) := by
          simp [renderSeg]
        rw [hshape, replaceDouble_match '~' '~' st (render ss)
          (fun ch hch => (plainChar_spec ch (hok3.1 ch hch)).2.2.2.2.1) hok3.2,
          ih hok2]
        rfl
      | plain p => simp [isStrike] at hw
      | wiki w => simp [isStrike] at hw
      | bold b => simp [isStrike] at hw
      | highlight hl => simp [isStrike] at hw
    · have hwf : isStrike s = false := by simpa using hw
      have hskip : ∀ ch ∈ renderSeg s, ch ≠ '~' := fun ch hch =>
        renderSeg_ne s hok1 '~'
          (fun c2 hc2 => (plainChar_spec c2 hc2).2.2.2.2.1)
          (fun _ => by decide) (fun _ => by decide) (fun _ => by decide)
          (fun hx => absurd hx (by simp [hwf]))
          ch hch
      rw [replaceDouble_skip '~' '~' (renderSeg s) (render ss) hskip, ih hok2,
        mapStrike_eq_self s hwf]

theorem hasPair_false_snd (x y : Char) (l : List Char)
    (h : ∀ ch ∈ l, ch ≠ y) : hasPair x y l = false := by
  induction l with
  | nil => rfl
  | cons a rest ih =>
    cases rest with
    | nil => rfl
    | cons b r2 =>
      rw [hasPair]
      have hb : b ≠ y := h b (by simp)
      simp only [Bool.or_eq_false_iff]
      exact ⟨by simp [hb], ih (fun ch hch => h ch (by simp [hch]))⟩

theorem stripHeadings_start (tc : Char) (t2 l : List Char)
    (hnw : isWsChar tc = false)
    (hnh : ∀ ch ∈ tc :: (t2 ++ '\n' :: l), ch ≠ '#') :
    stripHeadings true ('#' :: ' ' :: tc :: (t2 ++ '\n' :: l)) =
      tc :: (t2 ++ '\n' :: l) := by
  rw [stripHeadings, if_pos ⟨rfl, rfl⟩]
  have htw : (' ' :: tc :: (t2 ++ '\n' :: l)).takeWhile (eqChar '#') = [] := by
    rw [List.takeWhile_cons_of_neg]
    simp [eqChar]
  rw [htw]
  simp only [List.length_nil, List.drop_zero]
  have hws : (' ' :: tc :: (t2 ++ '\n' :: l)).takeWhile isWsChar = [' '] := by
    rw [List.takeWhile_cons_of_pos (by decide),
      List.takeWhile_cons_of_neg (by simp [hnw])]
  simp only [hws]
  rw [if_pos ⟨by norm_num, by simp⟩]
  have hlast : (decide ((([' '] : List Char).getLast?) = some '\n')) = false := by
    decide
  rw [hlast]
  simp only [List.length_cons, List.length_nil, List.drop_succ_cons,
    List.drop_zero]
  exact stripHeadings_no_hash _ hnh false

theorem render_ne_hash (segs : List Seg) (hok : segs.all segOK = true) :
    ∀ ch ∈ render segs, ch ≠ '#' := by
  refine render_ne segs '#' (fun s hs => ?_)
  exact renderSeg_ne s (List.all_eq_true.mp hok s hs) '#'
    (fun c2 hc2 => (plainChar_spec c2 hc2).2.2.2.2.2.1)
    (fun _ => by decide) (fun _ => by decide) (fun _ => by decide)
    (fun _ => by decide)

theorem render_ne_nl (segs : List Seg) (hok : segs.all segOK = true) :
    ∀ ch ∈ render segs, ch ≠ '\n' := by
  refine render_ne segs '\n' (fun s hs => ?_)
  exact renderSeg_ne s (List.all_eq_true.mp hok s hs) '\n'
    (fun c2 hc2 => (plainChar_spec c2 hc2).2.2.2.2.2.2)
    (fun _ => by decide) (fun _ => by decide) (fun _ => by decide)
    (fun _ => by decide)

theorem render_ne_star (segs : List Seg) (hok : segs.all segOK = true)
    (hnb : ∀ s ∈ segs, isBold s = false) :
    ∀ ch ∈ render segs, ch ≠ '*' := by
  refine render_ne segs '*' (fun s hs => ?_)
  exact renderSeg_ne s (List.all_eq_true.mp hok s hs) '*'
    (fun c2 hc2 => (plainChar_spec c2 hc2).2.2.1)
    (fun _ => by decide) (fun hx => absurd hx (by simp [hnb s hs]))
    (fun _ => by decide) (fun _ => by decide)

theorem render_ne_eqsign (segs : List Seg) (hok : segs.all segOK = true)
    (hnh : ∀ s ∈ segs, isHl s = false) :
    ∀ ch ∈ render segs, ch ≠ '=' := by
  refine render_ne segs '=' (fun s hs => ?_)
  exact renderSeg_ne s (List.all_eq_true.mp hok s hs) '='
    (fun c2 hc2 => (plainChar_spec c2 hc2).2.2.2.1)
    (fun _ => by decide) (fun _ => by decide)
    (fun hx => absurd hx (by simp [hnh s hs])) (fun _ => by decide)

theorem render_ne_tilde (segs : List Seg) (hok : segs.all segOK = true)
    (hns : ∀ s ∈ segs, isStrike s = false) :
    ∀ ch ∈ render segs, ch ≠ '~' := by
  refine render_ne segs '~' (fun s hs => ?_)
  exact renderSeg_ne s (List.all_eq_true.mp hok s hs) '~'
    (fun c2 hc2 => (plainChar_spec c2 hc2).2.2.2.2.1)
    (fun _ => by decide) (fun _ => by decide) (fun _ => by decide)
    (fun hx => absurd hx (by simp [hns s hs]))

theorem render_ne_brackets (segs : List Seg) (hok : segs.all segOK = true)
    (hnw : ∀ s ∈ segs, isWiki s = false) :
    ∀ ch ∈ render segs, ch ≠ '[' ∧ ch ≠ ']' := by
  intro ch hch
  obtain ⟨s, hs, hchs⟩ := mem_render segs ch hch
  exact renderSeg_ne_bracket s (List.all_eq_true.mp hok s hs) (hnw s hs) ch hchs

/-- C7: For every input text in which each emphasis, link and heading
construct occurs singly and without overlap — formalized as a level-1
heading line followed by an arbitrary interleaving of plain text and
well-formed wiki-link, bold, highlight and strikethrough constructs whose
bodies are free of markup characters — the cleaned content contains no raw
star-star, equals-equals, tilde-tilde, leading hash heading marker, or
double-bracket substring after the fixed ordered cleaning sequence. -/
theorem claim_C7_no_residual_markers (tc : Char) (t2 : List Char)
    (segs : List Seg) (htc : plainChar tc = true) (hnw : isWsChar tc = false)
    (ht2 : t2.all plainChar = true) (hsegs : segs.all segOK = true) :
    hasPair '*' '*' (cleanContent
      ('#' :: ' ' :: tc :: (t2 ++ '\n' :: render segs))) = false ∧
    hasPair '=' '=' (cleanContent
      ('#' :: ' ' :: tc :: (t2 ++ '\n' :: render segs))) = false ∧
    hasPair '~' '~' (cleanContent
      ('#' :: ' ' :: tc :: (t2 ++ '\n' :: render segs))) = false ∧
    hasPair '[' '[' (cleanContent
      ('#' :: ' ' :: tc :: (t2 ++ '\n' :: render segs))) = false ∧
    hasPair ']' ']' (cleanContent
      ('#' :: ' ' :: tc :: (t2 ++ '\n' :: render segs))) = false ∧
    (cleanContent ('#' :: ' ' :: tc :: (t2 ++ '\n' :: render segs))).take 1
      ≠ ['#'] ∧
    hasPair '\n' '#' (cleanContent
      ('#' :: ' ' :: tc :: (t2 ++ '\n' :: render segs))) = false := by
  have ht2' : ∀ ch ∈ t2, plainChar ch = true := List.all_eq_true.mp ht2
  have hok2 := all_segOK_map mapWiki segOK_mapWiki segs hsegs
  have hok3 := all_segOK_map mapBold segOK_mapBold _ hok2
  have hok4 := all_segOK_map mapHl segOK_mapHl _ hok3
  have hok5 := all_segOK_map mapStrike segOK_mapStrike _ hok4
  have hw2 : ∀ s ∈ segs.map mapWiki, isWiki s = false := by
    intro s hs
    rw [List.mem_map] at hs
    obtain ⟨s0, _, rfl⟩ := hs
    exact isWiki_mapWiki s0
  have hb3 : ∀ s ∈ (segs.map mapWiki).map mapBold, isBold s = false := by
    intro s hs
    rw [List.mem_map] at hs
    obtain ⟨s0, _, rfl⟩ := hs
    exact isBold_mapBold s0
  have hk5 : ∀ s ∈ (((segs.map mapWiki).map mapBold).map mapHl).map mapStrike,
      isWiki s = false ∧ isBold s = false ∧ isHl s = false ∧
        isStrike s = false := by
    intro s hs
    rw [List.mem_map] at hs
    obtain ⟨s4, hs4, rfl⟩ := hs
    rw [List.mem_map] at hs4
    obtain ⟨s3, hs3, rfl⟩ := hs4
    rw [List.mem_map] at hs3
    obtain ⟨s2, hs2, rfl⟩ := hs3
    rw [List.mem_map] at hs2
    obtain ⟨s1, hs1, rfl⟩ := hs2
    refine ⟨?_, ?_, ?_, ?_⟩
    · rw [isWiki_mapStrike, isWiki_mapHl, isWiki_mapBold]
      exact isWiki_mapWiki s1
    · rw [isBold_mapStrike, isBold_mapHl]
      exact isBold_mapBold (mapWiki s1)
    · rw [isHl_mapStrike]
      exact isHl_mapHl _
    · exact isStrike_mapStrike _
  have hmem : ∀ (X : List Char) (ch : Char),
      ch ∈ ('#' :: ' ' :: tc :: (t2 ++ '\n' :: X)) →
      ch = '#' ∨ ch = ' ' ∨ ch = tc ∨ ch ∈ t2 ∨ ch = '\n' ∨ ch ∈ X := by
    intro X ch hch
    simp only [List.mem_cons, List.mem_append] at hch
    tauto
  have hmem2 : ∀ (X : List Char) (ch : Char),
      ch ∈ (tc :: (t2 ++ '\n' :: X)) →
      ch = tc ∨ ch ∈ t2 ∨ ch = '\n' ∨ ch ∈ X := by
    intro X ch hch
    simp only [List.mem_cons, List.mem_append] at hch
    tauto
  have hpre5 : ∀ ch ∈ ('#' :: ' ' :: tc :: (t2 ++ ['\n'])),
      ch ≠ '[' ∧ ch ≠ ']' ∧ ch ≠ '*' ∧ ch ≠ '=' ∧ ch ≠ '~' := by
    intro ch hch
    simp only [List.mem_cons, List.mem_append] at hch
    rcases hch with rfl | rfl | rfl | hin | hm
    · exact ⟨by decide, by decide, by decide, by decide, by decide⟩
    · exact ⟨by decide, by decide, by decide, by decide, by decide⟩
    · have h := plainChar_spec _ htc
      exact ⟨h.1, h.2.1, h.2.2.1, h.2.2.2.1, h.2.2.2.2.1⟩
    · have h := plainChar_spec ch (ht2' ch hin)
      exact ⟨h.1, h.2.1, h.2.2.1, h.2.2.2.1, h.2.2.2.2.1⟩
    · simp at hm
      subst hm
      exact ⟨by decide, by decide, by decide, by decide, by decide⟩
  have hpre2 : ∀ ch ∈ (tc :: (t2 ++ ['\n'])),
      ch ≠ '[' ∧ ch ≠ ']' ∧ ch ≠ '*' ∧ ch ≠ '=' ∧ ch ≠ '~' := by
    intro ch hch
    exact hpre5 ch (by simp only [List.mem_cons] at hch ⊢; tauto)
  have hA : stripFrontmatter ('#' :: ' ' :: tc :: (t2 ++ '\n' :: render segs))
      = '#' :: ' ' :: tc :: (t2 ++ '\n' :: render segs) := by
    have hcond : ¬ (('#' :: ' ' :: tc :: (t2 ++ '\n' :: render segs)).take 4
        = ("---\n".data)) := by
      intro hc
      rw [show ("---\n".data) = ['-', '-', '-', '\n'] from rfl] at hc
      simp [List.take_succ_cons] at hc
    unfold stripFrontmatter
    rw [if_neg hcond]
  have hB : replaceDouble '[' ']'
      ('#' :: ' ' :: tc :: (t2 ++ '\n' :: render segs)) =
      '#' :: ' ' :: tc :: (t2 ++ '\n' :: render (segs.map mapWiki)) := by
    have hs1 : '#' :: ' ' :: tc :: (t2 ++ '\n' :: render segs) =
        ('#' :: ' ' :: tc :: (t2 ++ ['\n'])) ++ render segs := by
      simp
    have hs2 : '#' :: ' ' :: tc :: (t2 ++ '\n' :: render (segs.map mapWiki)) =
        ('#' :: ' ' :: tc :: (t2 ++ ['\n'])) ++ render (segs.map mapWiki) := by
      simp
    rw [hs1, hs2,
      replaceDouble_skip '[' ']' _ _ (fun ch hch => (hpre5 ch hch).1),
      stage_wiki segs hsegs]
  have hC : replaceMdLink
      ('#' :: ' ' :: tc :: (t2 ++ '\n' :: render (segs.map mapWiki))) =
      '#' :: ' ' :: tc :: (t2 ++ '\n' :: render (segs.map mapWiki)) := by
    refine replaceMdLink_id _ (fun ch hch => ?_)
    rcases hmem _ ch hch with rfl | rfl | rfl | hin | rfl | hr
    · decide
    · decide
    · exact (plainChar_spec _ htc).1
    · exact (plainChar_spec ch (ht2' ch hin)).1
    · decide
    · exact (render_ne_brackets _ hok2 hw2 ch hr).1
  have hD : stripHeadings true
      ('#' :: ' ' :: tc :: (t2 ++ '\n' :: render (segs.map mapWiki))) =
      tc :: (t2 ++ '\n' :: render (segs.map mapWiki)) := by
    refine stripHeadings_start tc t2 _ hnw (fun ch hch => ?_)
    rcases hmem2 _ ch hch with rfl | hin | rfl | hr
    · exact (plainChar_spec _ htc).2.2.2.2.2.1
    · exact (plainChar_spec ch (ht2' ch hin)).2.2.2.2.2.1
    · decide
    · exact render_ne_hash _ hok2 ch hr
  have hE : replaceDouble '*' '*'
      (tc :: (t2 ++ '\n' :: render (segs.map mapWiki))) =
      tc :: (t2 ++ '\n' :: render ((segs.map mapWiki).map mapBold)) := by
    have hs1 : tc :: (t2 ++ '\n' :: render (segs.map mapWiki)) =
        (tc :: (t2 ++ ['\n'])) ++ render (segs.map mapWiki) := by
      simp
    have hs2 : tc :: (t2 ++ '\n' :: render ((segs.map mapWiki).map mapBold)) =
        (tc :: (t2 ++ ['\n'])) ++ render ((segs.map mapWiki).map mapBold) := by
      simp
    rw [hs1, hs2,
      replaceDouble_skip '*' '*' _ _ (fun ch hch => (hpre2 ch hch).2.2.1),
      stage_bold _ hok2]
  have hF : replaceSingle '*'
      (tc :: (t2 ++ '\n' :: render ((segs.map mapWiki).map mapBold))) =
      tc :: (t2 ++ '\n' :: render ((segs.map mapWiki).map mapBold)) := by
    refine replaceSingle_id _ _ (fun ch hch => ?_)
    rcases hmem2 _ ch hch with rfl | hin | rfl | hr
    · exact (plainChar_spec _ htc).2.2.1
    · exact (plainChar_spec ch (ht2' ch hin)).2.2.1
    · decide
    · exact render_ne_star _ hok3 hb3 ch hr
  have hG : replaceDouble '=' '='
      (tc :: (t2 ++ '\n' :: render ((segs.map mapWiki).map mapBold))) =
      tc :: (t2 ++ '\n' ::
        render (((segs.map mapWiki).map mapBold).map mapHl)) := by
    have hs1 : tc :: (t2 ++ '\n' :: render ((segs.map mapWiki).map mapBold)) =
        (tc :: (t2 ++ ['\n'])) ++ render ((segs.map mapWiki).map mapBold) := by
      simp
    have hs2 : tc :: (t2 ++ '\n' ::
        render (((segs.map mapWiki).map mapBold).map mapHl)) =
        (tc :: (t2 ++ ['\n'])) ++
          render (((segs.map mapWiki).map mapBold).map mapHl) := by
      simp
    rw [hs1, hs2,
      replaceDouble_skip '=' '=' _ _ (fun ch hch => (hpre2 ch hch).2.2.2.1),
      stage_hl _ hok3]
  have hH : replaceDouble '~' '~'
      (tc :: (t2 ++ '\n' ::
        render (((segs.map mapWiki).map mapBold).map mapHl))) =
      tc :: (t2 ++ '\n' ::
        render ((((segs.map mapWiki).map mapBold).map mapHl).map mapStrike)) := by
    have hs1 : tc :: (t2 ++ '\n' ::
        render (((segs.map mapWiki).map mapBold).map mapHl)) =
        (tc :: (t2 ++ ['\n'])) ++
          render (((segs.map mapWiki).map mapBold).map mapHl) := by
      simp
    have hs2 : tc :: (t2 ++ '\n' ::
        render ((((segs.map mapWiki).map mapBold).map mapHl).map mapStrike)) =
        (tc :: (t2 ++ ['\n'])) ++
          render ((((segs.map mapWiki).map mapBold).map mapHl).map mapStrike) := by
      simp
    rw [hs1, hs2,
      replaceDouble_skip '~' '~' _ _ (fun ch hch => (hpre2 ch hch).2.2.2.2),
      stage_strike _ hok4]
  have hI : stripHashtags
      (tc :: (t2 ++ '\n' ::
        render ((((segs.map mapWiki).map mapBold).map mapHl).map mapStrike))) =
      tc :: (t2 ++ '\n' ::
        render ((((segs.map mapWiki).map mapBold).map mapHl).map mapStrike)) := by
    refine stripHashtags_id _ (fun ch hch => ?_)
    rcases hmem2 _ ch hch with rfl | hin | rfl | hr
    · exact (plainChar_spec _ htc).2.2.2.2.2.1
    · exact (plainChar_spec ch (ht2' ch hin)).2.2.2.2.2.1
    · decide
    · exact render_ne_hash _ hok5 ch hr
  have hJ : collapseNewlines
      (tc :: (t2 ++ '\n' ::
        render ((((segs.map mapWiki).map mapBold).map mapHl).map mapStrike))) =
      tc :: (t2 ++ '\n' ::
        render ((((segs.map mapWiki).map mapBold).map mapHl).map mapStrike)) := by
    have hs1 : tc :: (t2 ++ '\n' ::
        render ((((segs.map mapWiki).map mapBold).map mapHl).map mapStrike)) =
        (tc :: t2) ++ ('\n' ::
          render ((((segs.map mapWiki).map mapBold).map mapHl).map mapStrike)) := by
      simp
    have hn1 : ∀ ch ∈ tc :: t2, ch ≠ '\n' := by
      intro ch hch
      rcases List.mem_cons.mp hch with rfl | hin
      · exact (plainChar_spec _ htc).2.2.2.2.2.2
      · exact (plainChar_spec ch (ht2' ch hin)).2.2.2.2.2.2
    have hn3 := render_ne_nl _ hok5
    have hn2 : ∀ ch ∈ (render ((((segs.map mapWiki).map mapBold).map
        mapHl).map mapStrike)).take 1, ch ≠ '\n' := by
      intro ch hch
      exact hn3 ch (List.take_subset 1 _ hch)
    rw [hs1, collapseNewlines_skip _ _ hn1, collapseNewlines_single _ hn2,
      collapseNewlines_id _ hn3]
  have hclean : cleanContent ('#' :: ' ' :: tc :: (t2 ++ '\n' :: render segs))
      = trimWs (tc :: (t2 ++ '\n' ::
        render ((((segs.map mapWiki).map mapBold).map mapHl).map mapStrike))) := by
    unfold cleanContent
    rw [hA, hB, hC, hD, hE, hF, hG, hH, hI, hJ]
  have hfin : ∀ ch ∈ tc :: (t2 ++ '\n' ::
      render ((((segs.map mapWiki).map mapBold).map mapHl).map mapStrike)),
      ch ≠ '*' ∧ ch ≠ '=' ∧ ch ≠ '~' ∧ ch ≠ '[' ∧ ch ≠ ']' ∧ ch ≠ '#' := by
    intro ch hch
    rcases hmem2 _ ch hch with rfl | hin | rfl | hr
    · have h := plainChar_spec _ htc
      exact ⟨h.2.2.1, h.2.2.2.1, h.2.2.2.2.1, h.1, h.2.1, h.2.2.2.2.2.1⟩
    · have h := plainChar_spec ch (ht2' ch hin)
      exact ⟨h.2.2.1, h.2.2.2.1, h.2.2.2.2.1, h.1, h.2.1, h.2.2.2.2.2.1⟩
    · exact ⟨by decide, by decide, by decide, by decide, by decide, by decide⟩
    · refine ⟨render_ne_star _ hok5 (fun s hs => (hk5 s hs).2.1) ch hr,
        render_ne_eqsign _ hok5 (fun s hs => (hk5 s hs).2.2.1) ch hr,
        render_ne_tilde _ hok5 (fun s hs => (hk5 s hs).2.2.2) ch hr,
        (render_ne_brackets _ hok5 (fun s hs => (hk5 s hs).1) ch hr).1,
        (render_ne_brackets _ hok5 (fun s hs => (hk5 s hs).1) ch hr).2,
        render_ne_hash _ hok5 ch hr⟩
  rw [hclean]
  have hsub := trimWs_subset (tc :: (t2 ++ '\n' ::
    render ((((segs.map mapWiki).map mapBold).map mapHl).map mapStrike)))
  refine ⟨?_, ?_, ?_, ?_, ?_, ?_, ?_⟩
  · exact hasPair_false _ _ _ (fun ch hch => (hfin ch (hsub ch hch)).1)
  · exact hasPair_false _ _ _ (fun ch hch => (hfin ch (hsub ch hch)).2.1)
  · exact hasPair_false _ _ _ (fun ch hch => (hfin ch (hsub ch hch)).2.2.1)
  · exact hasPair_false _ _ _ (fun ch hch => (hfin ch (hsub ch hch)).2.2.2.1)
  · exact hasPair_false _ _ _ (fun ch hch => (hfin ch (hsub ch hch)).2.2.2.2.1)
  · intro hc
    have h1 : '#' ∈ trimWs (tc :: (t2 ++ '\n' ::
        render ((((segs.map mapWiki).map mapBold).map mapHl).map mapStrike))) := by
      refine List.take_subset 1 _ ?_
      rw [hc]
      simp
    exact (hfin '#' (hsub _ h1)).2.2.2.2.2 rfl
  · exact hasPair_false_snd _ _ _
      (fun ch hch => (hfin ch (hsub ch hch)).2.2.2.2.2)

theorem claim_C7_witness :
    (plainChar 'T' = true ∧ isWsChar 'T' = false ∧
      ("itle".data).all plainChar = true ∧
      ([Seg.plain (" x ".data), Seg.wiki ("Other".data),
        Seg.plain (" y ".data), Seg.bold ("bd".data),
        Seg.highlight ("hi".data), Seg.strike ("gone".data)]).all segOK
        = true) ∧
    (hasPair '*' '*' (cleanContent
      ('#' :: ' ' :: 'T' :: ("itle".data ++ '\n' :: render
        [Seg.plain (" x ".data), Seg.wiki ("Other".data),
         Seg.plain (" y ".data), Seg.bold ("bd".data),
         Seg.highlight ("hi".data), Seg.strike ("gone".data)]))) = false ∧
     hasPair '=' '=' (cleanContent
      ('#' :: ' ' :: 'T' :: ("itle".data ++ '\n' :: render
        [Seg.plain (" x ".data), Seg.wiki ("Other".data),
         Seg.plain (" y ".data), Seg.bold ("bd".data),
         Seg.highlight ("hi".data), Seg.strike ("gone".data)]))) = false ∧
     hasPair '~' '~' (cleanContent
      ('#' :: ' ' :: 'T' :: ("itle".data ++ '\n' :: render
        [Seg.plain (" x ".data), Seg.wiki ("Other".data),
         Seg.plain (" y ".data), Seg.bold ("bd".data),
         Seg.highlight ("hi".data), Seg.strike ("gone".data)]))) = false ∧
     hasPair '[' '[' (cleanContent
      ('#' :: ' ' :: 'T' :: ("itle".data ++ '\n' :: render
        [Seg.plain (" x ".data), Seg.wiki ("Other".data),
         Seg.plain (" y ".data), Seg.bold ("bd".data),
         Seg.highlight ("hi".data), Seg.strike ("gone".data)]))) = false ∧
     hasPair ']' ']' (cleanContent
      ('#' :: ' ' :: 'T' :: ("itle".data ++ '\n' :: render
        [Seg.plain (" x ".data), Seg.wiki ("Other".data),
         Seg.plain (" y ".data), Seg.bold ("bd".data),
         Seg.highlight ("hi".data), Seg.strike ("gone".data)]))) = false ∧
     (cleanContent
      ('#' :: ' ' :: 'T' :: ("itle".data ++ '\n' :: render
        [Seg.plain (" x ".data), Seg.wiki ("Other".data),
         Seg.plain (" y ".data), Seg.bold ("bd".data),
         Seg.highlight ("hi".data), Seg.strike ("gone".data)]))).take 1
       ≠ ['#'] ∧
     hasPair '\n' '#' (cleanContent
      ('#' :: ' ' :: 'T' :: ("itle".data ++ '\n' :: render
        [Seg.plain (" x ".data), Seg.wiki ("Other".data),
         Seg.plain (" y ".data), Seg.bold ("bd".data),
         Seg.highlight ("hi".data), Seg.strike ("gone".data)]))) = false) :=
  ⟨⟨by decide, by decide, by decide, by decide⟩,
    claim_C7_no_residual_markers 'T' ("itle".data)
      [Seg.plain (" x ".data), Seg.wiki ("Other".data),
       Seg.plain (" y ".data), Seg.bold ("bd".data),
       Seg.highlight ("hi".data), Seg.strike ("gone".data)]
      (by decide) (by decide) (by decide) (by decide)⟩

end NoteProcessor
